import Mathlib

/-!
Verification development for the rustpress-plugin-rustseo core subsystems:
the SEO analysis engine (`src/services/analysis.rs`, `src/models/analysis.rs`),
the redirect matcher (`src/services/redirect.rs`, `src/models/redirect.rs`),
and the robots.txt engine (`src/services/robots.rs`, `src/models/robots.rs`).

Rust strings are modelled as Lean `String` (a packed `List Char`); the
standard-library string operations the source uses (`lines`, `trim`,
`split_once`, `starts_with`, `contains`, `matches`, `split_whitespace`,
`split`, `find`, `to_lowercase`, `len`) are given explicit executable
models below.  `to_lowercase` is modelled per-`Char` (faithful on ASCII,
which is all the analysed data uses); `len` is modelled as the UTF-8 byte
length, as in Rust.  `f32` arithmetic is modelled by exact rational
arithmetic: every claim proved here is insensitive to `f32` rounding
(either branch-independent or evaluated at inputs where the `f32`
computation is exact).  Nondeterministic environment effects
(`Uuid::now_v7()`, `Utc::now()`) are modelled by explicit `id`/`now`
parameters supplied by the caller.
-/

namespace RustSeo

/-! ### Character-list primitives modelling Rust `str` operations -/

/-- Model of `str::trim` (ASCII whitespace, via `Char.isWhitespace`). -/
def trimData (l : List Char) : List Char :=
  ((l.dropWhile Char.isWhitespace).reverse.dropWhile Char.isWhitespace).reverse

/-- Model of `str::trim` on `String`. -/
def trimStr (s : String) : String := String.mk (trimData s.data)

/-- Model of `str::to_lowercase` (per-char, faithful on ASCII). -/
def lowerStr (s : String) : String := String.mk (s.data.map Char.toLower)

/-- Split a character list at every occurrence of a separator character,
keeping empty pieces (model of Rust `str::split(char)`). -/
def splitCharData (sep : Char) : List Char → List (List Char)
  | [] => [[]]
  | c :: cs =>
    match splitCharData sep cs with
    | [] => [[]]
    | h :: t => if c = sep then [] :: h :: t else (c :: h) :: t

/-- Drop a single trailing carriage return, as Rust `str::lines` does. -/
def dropCR (l : List Char) : List Char :=
  if l.getLast? = some '\r' then l.dropLast else l

/-- Model of `str::lines`: split on newline, drop the trailing empty piece
produced by a final newline, strip one trailing CR per line. -/
def rustLinesData (l : List Char) : List (List Char) :=
  if l = [] then []
  else
    let parts := splitCharData '\n' l
    let parts := if parts.getLast? = some [] then parts.dropLast else parts
    parts.map dropCR

/-- Model of `str::lines` on `String`. -/
def rustLines (s : String) : List String := (rustLinesData s.data).map String.mk

/-- Model of `str::split_once(sep)`: split at the first occurrence of the
separator character, or `none` if it does not occur. -/
def splitOnceData (sep : Char) : List Char → Option (List Char × List Char)
  | [] => none
  | c :: cs =>
    if c = sep then some ([], cs)
    else
      match splitOnceData sep cs with
      | some (a, b) => some (c :: a, b)
      | none => none

/-- Model of `str::split_once` on `String`. -/
def splitOnce (sep : Char) (s : String) : Option (String × String) :=
  match splitOnceData sep s.data with
  | some (a, b) => some (String.mk a, String.mk b)
  | none => none

/-- Contiguous-sublist test (model of `str::contains(&str)`; byte-substring
occurrence in valid UTF-8 coincides with char-sequence occurrence). -/
def containsSubData (hay needle : List Char) : Bool :=
  match hay with
  | [] => needle.isEmpty
  | _ :: t => needle.isPrefixOf hay || containsSubData t needle

/-- Model of `str::contains(&str)`. -/
def strContains (s pat : String) : Bool := containsSubData s.data pat.data

/-- Model of `str::starts_with(&str)`. -/
def strStarts (s pat : String) : Bool := pat.data.isPrefixOf s.data

/-- Model of `str::ends_with(char)`. -/
def strEndsCh (s : String) (c : Char) : Bool := s.data.getLast? = some c

/-- Scanner for non-overlapping occurrence counting (`str::matches(..).count()`),
fuelled by the haystack length; requires a nonempty needle. -/
def countOccsAux (needle : List Char) : Nat → List Char → Nat
  | 0, _ => 0
  | _, [] => 0
  | fuel + 1, c :: cs =>
    if needle.isPrefixOf (c :: cs) then
      1 + countOccsAux needle fuel (List.drop (needle.length - 1) cs)
    else
      countOccsAux needle fuel cs

/-- Model of `str::matches(&str).count()`: non-overlapping left-to-right
occurrence count; an empty needle matches at every char boundary. -/
def countOccs (hay needle : List Char) : Nat :=
  if needle = [] then hay.length + 1 else countOccsAux needle hay.length hay

/-- Model of `str::matches(&str).count()` on `String`. -/
def strCountMatches (s pat : String) : Nat := countOccs s.data pat.data

/-- Model of `str::find(&str)`: byte index of the first occurrence. -/
def findSubAux (needle : List Char) : List Char → Nat → Option Nat
  | [], acc => if needle = [] then some acc else none
  | c :: cs, acc =>
    if needle.isPrefixOf (c :: cs) then some acc
    else findSubAux needle cs (acc + c.utf8Size)

/-- Model of `str::find(&str)` on `String`. -/
def strFind (s pat : String) : Option Nat := findSubAux pat.data s.data 0

/-- Model of `str::len`: UTF-8 byte length. -/
def utf8Len (s : String) : Nat := s.data.foldl (fun n c => n + c.utf8Size) 0

/-- Tokenizer for `str::split_whitespace`: accumulates the current word
(reversed) and emits maximal nonempty runs of non-whitespace. -/
def splitWsAux : List Char → List Char → List (List Char)
  | [], cur => if cur = [] then [] else [cur.reverse]
  | c :: cs, cur =>
    if c.isWhitespace then
      if cur = [] then splitWsAux cs [] else cur.reverse :: splitWsAux cs []
    else
      splitWsAux cs (c :: cur)

/-- Model of `str::split_whitespace` (ASCII whitespace). -/
def splitWs (s : String) : List String := (splitWsAux s.data []).map String.mk

/-- Splitter on a string separator, fuelled by the haystack length;
requires a nonempty separator. -/
def splitOnSubAux (sep : List Char) : Nat → List Char → List Char → List (List Char)
  | _, [], cur => [cur.reverse]
  | 0, rest, cur => [cur.reverse ++ rest]
  | fuel + 1, c :: cs, cur =>
    if sep.isPrefixOf (c :: cs) then
      cur.reverse :: splitOnSubAux sep fuel (List.drop (sep.length - 1) cs) []
    else
      splitOnSubAux sep fuel cs (c :: cur)

/-- Model of `str::split(&str)` for a nonempty separator. -/
def splitOnSub (s sep : String) : List String :=
  if sep.data = [] then [s]
  else (splitOnSubAux sep.data s.data.length s.data []).map String.mk

/-- Model of `str::trim_matches(char)`: strip every leading and trailing
occurrence of the character. -/
def trimMatchesData (ch : Char) (l : List Char) : List Char :=
  ((l.dropWhile (· = ch)).reverse.dropWhile (· = ch)).reverse

/-- Model of `str::trim_matches(char)` on `String`. -/
def trimMatches (ch : Char) (s : String) : String := String.mk (trimMatchesData ch s.data)

/-! ### Decimal rendering and `u32` parsing -/

/-- Fuelled most-significant-first decimal digit accumulator
(model of `format!("{}")` on an unsigned integer). -/
def natToDigitsAux : Nat → Nat → List Char → List Char
  | 0, _, acc => acc
  | fuel + 1, n, acc =>
    if n < 10 then Nat.digitChar n :: acc
    else natToDigitsAux fuel (n / 10) (Nat.digitChar (n % 10) :: acc)

/-- Model of `format!("{}", n)` for an unsigned integer. -/
def natToString (n : Nat) : String := String.mk (natToDigitsAux (n + 1) n [])

/-- Decimal value of an ASCII digit character. -/
def digitVal (c : Char) : Option Nat :=
  if '0' ≤ c ∧ c ≤ '9' then some (c.toNat - '0'.toNat) else none

/-- Fold a digit string into its value; fails on any non-digit. -/
def parseDigitsAux : List Char → Nat → Option Nat
  | [], acc => some acc
  | c :: cs, acc =>
    match digitVal c with
    | some d => parseDigitsAux cs (acc * 10 + d)
    | none => none

/-- Model of `str::parse::<u32>()`: optional leading `+`, one or more ASCII
digits, failure on overflow past `u32::MAX`. -/
def parseU32 (s : String) : Option Nat :=
  let l := if s.data.head? = some '+' then s.data.tail else s.data
  match l with
  | [] => none
  | _ =>
    match parseDigitsAux l 0 with
    | some v => if v < 4294967296 then some v else none
    | none => none

/-! ### Model of the external `regex` crate

The redirect matcher calls into the external `regex` crate
(`regex::Regex::new`, `is_match`, `replace`).  The crate is not part of
this repository, so it is modelled here, restricted to the pattern shapes
the analysed code paths exercise: an optional leading `^` anchor, an
optional trailing `$` anchor, literal characters and at most one `(.*)`
capture group.  Any other pattern is treated as failing to compile, which
the source treats as a non-match.  `(.*)` does not match a newline, `^`
pins the match to the start, `$` to the end, search is leftmost with a
greedy group, and replacement templates support `$$` and `$name` with
decimal group references (`$0` whole match, `$1` the group), all as in
the crate. -/

def lbraceChar : Char := Char.ofNat 123

def rbraceChar : Char := Char.ofNat 125

/-- Regex metacharacters: a pattern containing any of these outside the
single recognised `(.*)` group is outside the modelled subset. -/
def regexMeta (c : Char) : Bool :=
  c = '\\' || c = '(' || c = ')' || c = '[' || c = ']' || c = lbraceChar ||
  c = rbraceChar || c = '|' || c = '?' || c = '*' || c = '+' || c = '.' ||
  c = '^' || c = '$'

/-- The four characters of the recognised capture group `(.*)`. -/
def groupPat : List Char := ['(', '.', '*', ')']

/-- Split a list at the first occurrence of a (nonempty) separator,
returning the pieces before and after it. -/
def breakOnSub (sep : List Char) : Nat → List Char → Option (List Char × List Char)
  | _, [] => none
  | 0, _ => none
  | fuel + 1, c :: cs =>
    if sep.isPrefixOf (c :: cs) then some ([], List.drop sep.length (c :: cs))
    else
      match breakOnSub sep fuel cs with
      | some (a, b) => some (c :: a, b)
      | none => none

/-- A compiled pattern from the modelled subset of the `regex` crate:
`^?` literal-prefix `(.*)`? literal-suffix `$?`. -/
structure SimpleRegex where
  astart : Bool
  aend : Bool
  pre : List Char
  hasGroup : Bool
  post : List Char
  deriving DecidableEq

/-- Model of `regex::Regex::new` on the supported subset; `none` both for
genuinely invalid patterns and for patterns outside the subset. -/
def compileRegex (pat : List Char) : Option SimpleRegex :=
  let sp := match pat with
    | '^' :: rest => (true, rest)
    | _ => (false, pat)
  let ep := if sp.2.getLast? = some '$' then (true, sp.2.dropLast) else (false, sp.2)
  match breakOnSub groupPat ep.2.length ep.2 with
  | some (pre, post) =>
    if pre.any regexMeta || post.any regexMeta || containsSubData post groupPat then none
    else some ⟨sp.1, ep.1, pre, true, post⟩
  | none =>
    if ep.2.any regexMeta then none
    else some ⟨sp.1, ep.1, ep.2, false, []⟩

/-- Try to match the pattern at the start of a suffix `s`; on success
return the matched extent's length and the group-1 capture (greedy, so
the longest capture compatible with the literal suffix and anchors). -/
def tryMatchAt (r : SimpleRegex) (s : List Char) : Option (Nat × List Char) :=
  if r.pre.isPrefixOf s then
    let rest := List.drop r.pre.length s
    if r.hasGroup then
      match (List.range (rest.length + 1)).reverse.find? (fun k =>
          (!(rest.take k).any (· = '\n')) &&
          (if r.aend then List.drop k rest = r.post
           else r.post.isPrefixOf (List.drop k rest))) with
      | some k => some (r.pre.length + k + r.post.length, rest.take k)
      | none => none
    else
      if r.aend then (if rest = [] then some (r.pre.length, []) else none)
      else some (r.pre.length, [])
  else none

/-- Leftmost match: start index, extent length and group capture. -/
def regexFindFirst (r : SimpleRegex) (s : List Char) : Option (Nat × Nat × List Char) :=
  if r.astart then
    match tryMatchAt r s with
    | some (len, g) => some (0, len, g)
    | none => none
  else
    (List.range (s.length + 1)).findSome? (fun i =>
      match tryMatchAt r (List.drop i s) with
      | some (len, g) => some (i, len, g)
      | none => none)

/-- Model of `Regex::is_match`. -/
def regexIsMatch (r : SimpleRegex) (s : List Char) : Bool :=
  (regexFindFirst r s).isSome

/-- Replacement-template name characters (`$name` references). -/
def isNameChar (c : Char) : Bool := c.isAlphanum || c = '_'

/-- Expand a replacement template: `$$` is a literal dollar, `$n` with a
decimal `n` references group `n` (`0` the whole match, `1` the capture;
any other reference expands to nothing, as in the crate). -/
def expandTemplateAux : Nat → List Char → List Char → List Char → List Char
  | 0, t, _, _ => t
  | _, [], _, _ => []
  | fuel + 1, '$' :: rest, whole, g1 =>
    match rest with
    | '$' :: rest2 => '$' :: expandTemplateAux fuel rest2 whole g1
    | _ =>
      let name := rest.takeWhile isNameChar
      if name = [] then '$' :: expandTemplateAux fuel rest whole g1
      else
        let refv :=
          if name.all Char.isDigit then
            match parseDigitsAux name 0 with
            | some 0 => whole
            | some 1 => g1
            | _ => []
          else []
        refv ++ expandTemplateAux fuel (List.drop name.length rest) whole g1
  | fuel + 1, c :: rest, whole, g1 => c :: expandTemplateAux fuel rest whole g1

/-- Model of `Regex::replace`: rewrite the leftmost match using the
template; the input is returned unchanged when there is no match. -/
def regexReplaceFirst (r : SimpleRegex) (s : List Char) (tmpl : List Char) : List Char :=
  match regexFindFirst r s with
  | some (i, len, g) =>
    s.take i ++ expandTemplateAux tmpl.length tmpl (List.take len (List.drop i s)) g
      ++ List.drop (i + len) s
  | none => s

/-! ### Redirect model (`src/models/redirect.rs`) -/

/-- Redirect type (HTTP status code), from `src/models/redirect.rs`. -/
inductive RedirectType where
  | permanent
  | temporary
  | temporaryPreserve
  | permanentPreserve
  | gone
  | legalRestriction
  deriving DecidableEq

/-- `RedirectType::status_code`. -/
def RedirectType.status_code : RedirectType → Nat
  | .permanent => 301
  | .temporary => 302
  | .temporaryPreserve => 307
  | .permanentPreserve => 308
  | .gone => 410
  | .legalRestriction => 451

/-- Match type for the source URL (`MatchType` in the source; the
`Prefix` constructor is rendered `prefixMatch` here). -/
inductive MatchType where
  | exact
  | prefixMatch
  | contains
  | regex
  deriving DecidableEq

/-- URL redirect rule (`Redirect` in the source).  `Uuid` ids and
`DateTime<Utc>` timestamps are modelled as `Nat` values supplied by the
caller. -/
structure Redirect where
  id : Nat
  source_url : String
  target_url : String
  redirect_type : RedirectType
  match_type : MatchType
  is_regex : Bool
  is_active : Bool
  hit_count : Int
  last_accessed : Option Nat
  notes : Option String
  created_at : Nat
  updated_at : Nat
  deriving DecidableEq

/-- `Redirect::new` (`id`, `now` model `Uuid::now_v7()` / `Utc::now()`). -/
def Redirect.new (source_url target_url : String) (redirect_type : RedirectType)
    (id now : Nat) : Redirect :=
  { id := id
    source_url := source_url
    target_url := target_url
    redirect_type := redirect_type
    match_type := .exact
    is_regex := false
    is_active := true
    hit_count := 0
    last_accessed := none
    notes := none
    created_at := now
    updated_at := now }

/-- `Redirect::get_target`: regex-template replacement only when both
`is_regex` is set and the match type is `Regex` (and the pattern
compiles); otherwise the stored target verbatim. -/
def Redirect.get_target (r : Redirect) (url : String) : String :=
  if r.is_regex && r.match_type = .regex then
    match compileRegex r.source_url.data with
    | some re => String.mk (regexReplaceFirst re url.data r.target_url.data)
    | none => r.target_url
  else r.target_url

/-- `Redirect::record_hit`. -/
def Redirect.record_hit (r : Redirect) (now : Nat) : Redirect :=
  { r with hit_count := r.hit_count + 1, last_accessed := some now }

/-- 404 log entry (`NotFoundLog` in the source). -/
structure NotFoundLog where
  id : Nat
  url : String
  referrer : Option String
  user_agent : Option String
  ip_address : Option String
  hit_count : Int
  first_seen : Nat
  last_seen : Nat
  has_redirect : Bool
  is_ignored : Bool
  deriving DecidableEq

/-- `NotFoundLog::new`. -/
def NotFoundLog.new (url : String) (id now : Nat) : NotFoundLog :=
  { id := id
    url := url
    referrer := none
    user_agent := none
    ip_address := none
    hit_count := 1
    first_seen := now
    last_seen := now
    has_redirect := false
    is_ignored := false }

/-- `NotFoundLog::record_hit`. -/
def NotFoundLog.record_hit (l : NotFoundLog) (now : Nat) : NotFoundLog :=
  { l with hit_count := l.hit_count + 1, last_seen := now }

/-- `RedirectSettings` as declared in the source: note there is no
maximum-redirect-chain field. -/
structure RedirectSettings where
  enabled : Bool
  log_404s : Bool
  auto_redirect_404_to_homepage : Bool
  redirect_attachment_pages : Bool
  redirect_category_base : Bool
  redirect_tag_base : Bool
  pass_query_string : Bool
  monitor_changes : Bool
  case_insensitive : Bool
  deriving DecidableEq

/-- `RedirectSettings::default`. -/
def RedirectSettings.default : RedirectSettings :=
  { enabled := true
    log_404s := true
    auto_redirect_404_to_homepage := false
    redirect_attachment_pages := true
    redirect_category_base := false
    redirect_tag_base := false
    pass_query_string := true
    monitor_changes := true
    case_insensitive := true }

/-- `RedirectService` state: ordered rule list, settings, and the 404 map
(`HashMap<String, NotFoundLog>` modelled as an association list with
at most one entry per key, maintained by the operations below). -/
structure RedirectService where
  redirects : List Redirect
  settings : RedirectSettings
  not_found_log : List (String × NotFoundLog)
  deriving DecidableEq

/-- `RedirectService::new`. -/
def RedirectService.new : RedirectService :=
  { redirects := [], settings := RedirectSettings.default, not_found_log := [] }

/-- The match-type dispatch in the loop body of
`RedirectService::find_redirect` (source lines 69–86): the stored source
is lowercased for the `Exact`/`Prefix`/`Contains` comparisons when the
case-insensitive setting is on, while the `Regex` arm compiles the
stored pattern **unmodified** (`Regex::new(&redirect.source_url)`)
and tests it against the (possibly lowercased) url. -/
def redirectRuleMatches (ci : Bool) (url_to_check : String) (r : Redirect) : Bool :=
  let source := if ci then lowerStr r.source_url else r.source_url
  match r.match_type with
  | .exact => url_to_check == source
  | .prefixMatch => strStarts url_to_check source
  | .contains => strContains url_to_check source
  | .regex =>
    match compileRegex r.source_url.data with
    | some re => regexIsMatch re url_to_check.data
    | none => false

/-- The rule loop of `RedirectService::find_redirect`: skip inactive
rules, return the first match. -/
def findRedirectAux (ci : Bool) (url_to_check : String) : List Redirect → Option Redirect
  | [] => none
  | r :: rest =>
    if !r.is_active then findRedirectAux ci url_to_check rest
    else if redirectRuleMatches ci url_to_check r then some r
    else findRedirectAux ci url_to_check rest

/-- `RedirectService::find_redirect`. -/
def RedirectService.find_redirect (svc : RedirectService) (url : String) : Option Redirect :=
  let url_to_check := if svc.settings.case_insensitive then lowerStr url else url
  findRedirectAux svc.settings.case_insensitive url_to_check svc.redirects

/-- First-entry lookup in the 404 map (model of `HashMap::get`). -/
def nfLookup : List (String × NotFoundLog) → String → Option NotFoundLog
  | [], _ => none
  | (k, v) :: t, url => if k = url then some v else nfLookup t url

/-- Update the entry for a key in the 404 map (model of `HashMap::get_mut`
followed by an in-place mutation). -/
def nfUpdate (f : NotFoundLog → NotFoundLog) :
    List (String × NotFoundLog) → String → List (String × NotFoundLog)
  | [], _ => []
  | (k, v) :: t, url => if k = url then (k, f v) :: t else (k, v) :: nfUpdate f t url

/-- `RedirectService::log_404`. -/
def RedirectService.log_404 (svc : RedirectService) (url : String)
    (referrer user_agent : Option String) (id now : Nat) : RedirectService :=
  if !svc.settings.log_404s then svc
  else
    match nfLookup svc.not_found_log url with
    | some _ =>
      { svc with not_found_log := nfUpdate (fun l => l.record_hit now) svc.not_found_log url }
    | none =>
      let log := { NotFoundLog.new url id now with referrer := referrer, user_agent := user_agent }
      { svc with not_found_log := svc.not_found_log ++ [(url, log)] }

/-- `RedirectService::add_redirect`. -/
def RedirectService.add_redirect (svc : RedirectService) (r : Redirect) : RedirectService :=
  { svc with redirects := svc.redirects ++ [r] }

/-- `RedirectService::add_301`. -/
def RedirectService.add_301 (svc : RedirectService) (source target : String)
    (id now : Nat) : RedirectService :=
  { svc with redirects := svc.redirects ++ [Redirect.new source target .permanent id now] }

/-- `RedirectService::add_302`. -/
def RedirectService.add_302 (svc : RedirectService) (source target : String)
    (id now : Nat) : RedirectService :=
  { svc with redirects := svc.redirects ++ [Redirect.new source target .temporary id now] }

/-- `RedirectService::create_redirect_from_404`: new permanent rule plus
the `has_redirect` mark on the matching 404 entry. -/
def RedirectService.create_redirect_from_404 (svc : RedirectService)
    (url target : String) (id now : Nat) : RedirectService × Redirect :=
  let redirect := Redirect.new url target .permanent id now
  ({ svc with
      not_found_log := nfUpdate (fun l => { l with has_redirect := true }) svc.not_found_log url
      redirects := svc.redirects ++ [redirect] },
   redirect)

/-- `RedirectService::ignore_404`. -/
def RedirectService.ignore_404 (svc : RedirectService) (url : String) : RedirectService :=
  { svc with not_found_log := nfUpdate (fun l => { l with is_ignored := true }) svc.not_found_log url }

/-- Remove the first rule with the given id (`Vec::remove` at
`position`). -/
def removeById (id : Nat) : List Redirect → List Redirect
  | [] => []
  | r :: rest => if r.id = id then rest else r :: removeById id rest

/-- `RedirectService::remove_redirect` (returns the updated state and the
success flag). -/
def RedirectService.remove_redirect (svc : RedirectService) (id : Nat) :
    RedirectService × Bool :=
  if (svc.redirects.find? (fun r => r.id = id)).isSome then
    ({ svc with redirects := removeById id svc.redirects }, true)
  else (svc, false)

/-- Field rewrite applied by `RedirectService::update_redirect` to the
first rule with the given id. -/
def updateFields (source target : Option String) (rt : Option RedirectType)
    (now : Nat) (r : Redirect) : Redirect :=
  let r := match source with
    | some s => { r with source_url := s }
    | none => r
  let r := match target with
    | some t => { r with target_url := t }
    | none => r
  let r := match rt with
    | some t => { r with redirect_type := t }
    | none => r
  { r with updated_at := now }

/-- Map a function over the first rule with the given id (model of
`iter_mut().find`). -/
def mapFirstById (id : Nat) (f : Redirect → Redirect) : List Redirect → List Redirect
  | [] => []
  | r :: rest => if r.id = id then f r :: rest else r :: mapFirstById id f rest

/-- `RedirectService::update_redirect`. -/
def RedirectService.update_redirect (svc : RedirectService) (id : Nat)
    (source target : Option String) (rt : Option RedirectType) (now : Nat) :
    RedirectService × Bool :=
  if (svc.redirects.find? (fun r => r.id = id)).isSome then
    ({ svc with redirects := mapFirstById id (updateFields source target rt now) svc.redirects }, true)
  else (svc, false)

/-- `RedirectService::set_redirect_active`. -/
def RedirectService.set_redirect_active (svc : RedirectService) (id : Nat)
    (active : Bool) (now : Nat) : RedirectService × Bool :=
  if (svc.redirects.find? (fun r => r.id = id)).isSome then
    ({ svc with redirects :=
        mapFirstById id (fun r => { r with is_active := active, updated_at := now }) svc.redirects },
     true)
  else (svc, false)

/-- Result of `RedirectService::process_redirect`. -/
structure RedirectResult where
  target_url : String
  status_code : Nat
  redirect_id : Nat
  deriving DecidableEq

/-- `RedirectService::process_redirect`: despite taking `&mut self` it
performs no state mutation (hit recording is a source comment only). -/
def RedirectService.process_redirect (svc : RedirectService) (url : String) :
    RedirectService × Option RedirectResult :=
  match svc.find_redirect url with
  | some redirect =>
    (svc, some { target_url := redirect.get_target url
                 status_code := redirect.redirect_type.status_code
                 redirect_id := redirect.id })
  | none => (svc, none)

/-- Result of `RedirectService::import_csv`. -/
structure ImportResult where
  imported : Nat
  skipped : Nat
  errors : List String
  deriving DecidableEq

/-- CSV redirect-type code interpretation inside `import_csv`. -/
def csvRedirectType (code : String) : RedirectType :=
  if code = "301" || code = "permanent" then .permanent
  else if code = "302" || code = "temporary" then .temporary
  else if code = "307" then .temporaryPreserve
  else if code = "308" then .permanentPreserve
  else if code = "410" || code = "gone" then .gone
  else .permanent

/-- The optional third CSV field interpreted as a redirect type
(default `Permanent`). -/
def csvTypeOf (ptail : List String) : RedirectType :=
  match ptail with
  | p2 :: _ => csvRedirectType (trimStr p2)
  | [] => .permanent

/-- The line loop of `RedirectService::import_csv`; `nid` models the
`Uuid` generator by numbering the created rules. -/
def importCsvAux (now : Nat) : List (Nat × String) → RedirectService → Nat →
    Nat → Nat → List String → RedirectService × ImportResult
  | [], svc, _, imported, skipped, errors =>
    (svc, { imported := imported, skipped := skipped, errors := errors })
  | (line_num, raw) :: rest, svc, nid, imported, skipped, errors =>
    let line := trimStr raw
    if line = "" || strStarts line "#" then
      importCsvAux now rest svc nid imported skipped errors
    else
      match (splitCharData ',' line.data).map String.mk with
      | p0 :: p1 :: ptail =>
        let source := trimMatches '"' (trimStr p0)
        let target := trimMatches '"' (trimStr p1)
        if svc.redirects.any (fun r => r.source_url = source) then
          importCsvAux now rest svc nid imported (skipped + 1)
            (errors ++ ["Line " ++ natToString (line_num + 1) ++ ": Duplicate source URL"])
        else
          importCsvAux now rest
            { svc with redirects :=
                svc.redirects ++ [Redirect.new source target (csvTypeOf ptail) nid now] }
            (nid + 1) (imported + 1) skipped errors
      | _ =>
        importCsvAux now rest svc nid imported (skipped + 1)
          (errors ++ ["Line " ++ natToString (line_num + 1) ++ ": Invalid format"])

/-- `RedirectService::import_csv` (`idSeed` models the `Uuid` source). -/
def RedirectService.import_csv (svc : RedirectService) (csv : String)
    (idSeed now : Nat) : RedirectService × ImportResult :=
  importCsvAux now (rustLines csv).enum svc idSeed 0 0 []

/-- Result of `RedirectService::test_url`; the source field `matches` is
rendered `matched` because `matches` is a Lean keyword. -/
structure TestResult where
  matched : Bool
  redirect_id : Option Nat
  source : Option String
  target : Option String
  status_code : Option Nat
  deriving DecidableEq

/-- `RedirectService::test_url`: a single `find_redirect` plus
`get_target`; there is no chain following or loop detection in the
source. -/
def RedirectService.test_url (svc : RedirectService) (url : String) : TestResult :=
  match svc.find_redirect url with
  | some redirect =>
    { matched := true
      redirect_id := some redirect.id
      source := some redirect.source_url
      target := some (redirect.get_target url)
      status_code := some redirect.redirect_type.status_code }
  | none =>
    { matched := false
      redirect_id := none
      source := none
      target := none
      status_code := none }

/-! ### Analysis model (`src/models/analysis.rs`)

Scores are `i32`, modelled as `Int`; the deductions stay far inside the
`i32` range, so no overflow wrapping is modelled.  `f32` fields and
settings (`keyword_density`, the readability statistics) are modelled as
exact rationals. -/

/-- Model of `i32::max` (explicit conditional so the kernel can
evaluate it). -/
def i32Max (a b : Int) : Int := if a ≤ b then b else a

/-- Model of `i32::min`. -/
def i32Min (a b : Int) : Int := if a ≤ b then a else b

/-- Model of `usize::max`. -/
def natMax (a b : Nat) : Nat := if a ≤ b then b else a

/-- Model of `f32::max` on the exact-rational model. -/
def ratMax (a b : ℚ) : ℚ := if a ≤ b then b else a

/-- Extra string helpers used by the analysers. -/
def countCharMatches (s : String) (p : Char → Bool) : Nat := (s.data.filter p).length

/-- UTF-8 byte length of a word (Rust `str::len`). -/
def byteLen (l : List Char) : Nat := l.foldl (fun n c => n + c.utf8Size) 0

/-- `content.split_whitespace().count()`. -/
def wordCount (s : String) : Nat := (splitWsAux s.data []).length

/-- `IssueSeverity` from the source. -/
inductive IssueSeverity where
  | error
  | warning
  | info
  | success
  deriving DecidableEq

/-- `AnalysisIssue`. -/
structure AnalysisIssue where
  severity : IssueSeverity
  title : String
  description : String
  deriving DecidableEq

/-- `AnalysisIssue::new`. -/
def AnalysisIssue.new (severity : IssueSeverity) (title description : String) : AnalysisIssue :=
  { severity := severity, title := title, description := description }

/-- `AnalysisSettings`. -/
structure AnalysisSettings where
  enabled : Bool
  min_word_count : Nat
  target_keyword_density : ℚ
  max_keyword_density : ℚ
  check_readability : Bool
  check_links : Bool
  check_images : Bool

/-- `AnalysisSettings::default`. -/
def AnalysisSettings.default : AnalysisSettings :=
  { enabled := true
    min_word_count := 300
    target_keyword_density := 2.0
    max_keyword_density := 3.0
    check_readability := true
    check_links := true
    check_images := true }

/-- `SeoGrade`. -/
inductive SeoGrade where
  | excellent
  | good
  | fair
  | poor
  | bad
  deriving DecidableEq

/-- `SeoScore`. -/
structure SeoScore where
  score : Int
  grade : SeoGrade
  deriving DecidableEq

/-- `SeoScore::new`: clamp to `[0, 100]`, then grade by the fixed
breakpoints (the source's range match on the clamped value). -/
def SeoScore.new (score : Int) : SeoScore :=
  let score := i32Min (i32Max score 0) 100
  let grade :=
    if 90 ≤ score then SeoGrade.excellent
    else if 70 ≤ score then SeoGrade.good
    else if 50 ≤ score then SeoGrade.fair
    else if 30 ≤ score then SeoGrade.poor
    else SeoGrade.bad
  { score := score, grade := grade }

/-- `TitleAnalysis`. -/
structure TitleAnalysis where
  score : Int
  title : String
  length : Nat
  has_focus_keyword : Bool
  keyword_position : Option Nat
  issues : List AnalysisIssue
  deriving DecidableEq

/-- `TitleAnalysis::analyze`. -/
def TitleAnalysis.analyze (title : String) (focus_keyword : Option String) : TitleAnalysis :=
  let length := utf8Len title
  let st : List AnalysisIssue × Int :=
    if length < 30 then
      ([AnalysisIssue.new .warning "Title is too short"
          "The title should be at least 30 characters for better SEO."], 100 - 15)
    else if length > 60 then
      ([AnalysisIssue.new .warning "Title is too long"
          "The title exceeds 60 characters and may be truncated in search results."], 100 - 10)
    else ([], 100)
  let kp : (Bool × Option Nat) × (List AnalysisIssue × Int) :=
    match focus_keyword with
    | some kw =>
      let lower_title := lowerStr title
      let lower_kw := lowerStr kw
      match strFind lower_title lower_kw with
      | some pos => ((true, some pos), st)
      | none =>
        ((false, none),
         (st.1 ++ [AnalysisIssue.new .error "Focus keyword not in title"
             "The focus keyword should appear in the title for better rankings."], st.2 - 25))
    | none => ((false, none), st)
  let fin : List AnalysisIssue × Int :=
    if kp.1.1 then
      match kp.1.2 with
      | some pos =>
        if pos > 20 then
          (kp.2.1 ++ [AnalysisIssue.new .info "Keyword not at start of title"
              "Moving the keyword closer to the beginning may improve rankings."], kp.2.2 - 5)
        else kp.2
      | none => kp.2
    else kp.2
  { score := i32Max fin.2 0
    title := title
    length := length
    has_focus_keyword := kp.1.1
    keyword_position := kp.1.2
    issues := fin.1 }

/-- `MetaAnalysis`. -/
structure MetaAnalysis where
  score : Int
  description : Option String
  length : Nat
  has_focus_keyword : Bool
  issues : List AnalysisIssue
  deriving DecidableEq

/-- The early-return result of `MetaAnalysis::analyze` for a missing or
empty description. -/
def MetaAnalysis.missing : MetaAnalysis :=
  { score := 0
    description := none
    length := 0
    has_focus_keyword := false
    issues := [AnalysisIssue.new .error "No meta description"
        "Add a meta description to control how your page appears in search results."] }

/-- `MetaAnalysis::analyze`. -/
def MetaAnalysis.analyze (description : Option String) (focus_keyword : Option String) :
    MetaAnalysis :=
  match description with
  | some d =>
    if d = "" then MetaAnalysis.missing
    else
      let length := utf8Len d
      let st : List AnalysisIssue × Int :=
        if length < 120 then
          ([AnalysisIssue.new .warning "Meta description is too short"
              "The description should be at least 120 characters."], 100 - 15)
        else if length > 160 then
          ([AnalysisIssue.new .warning "Meta description is too long"
              "The description exceeds 160 characters and may be truncated."], 100 - 10)
        else ([], 100)
      let hk : Bool × (List AnalysisIssue × Int) :=
        match focus_keyword with
        | some kw =>
          if strContains (lowerStr d) (lowerStr kw) then (true, st)
          else
            (false,
             (st.1 ++ [AnalysisIssue.new .warning "Focus keyword not in meta description"
                 "Include your focus keyword in the meta description."], st.2 - 15))
        | none => (false, st)
      { score := i32Max hk.2.2 0
        description := some d
        length := length
        has_focus_keyword := hk.1
        issues := hk.2.1 }
  | none => MetaAnalysis.missing

/-- `HeadingCount`. -/
structure HeadingCount where
  h1 : Nat
  h2 : Nat
  h3 : Nat
  h4 : Nat
  h5 : Nat
  h6 : Nat
  deriving DecidableEq

/-- `HeadingCount::default`. -/
def HeadingCount.zero : HeadingCount := ⟨0, 0, 0, 0, 0, 0⟩

/-- The per-line heading counter of `ContentAnalysis::analyze`. -/
def headingStep (hc : HeadingCount) (line : String) : HeadingCount :=
  let trimmed := trimStr line
  if strStarts trimmed "# " then { hc with h1 := hc.h1 + 1 }
  else if strStarts trimmed "## " then { hc with h2 := hc.h2 + 1 }
  else if strStarts trimmed "### " then { hc with h3 := hc.h3 + 1 }
  else if strStarts trimmed "#### " then { hc with h4 := hc.h4 + 1 }
  else hc

/-- `ContentAnalysis`. -/
structure ContentAnalysis where
  score : Int
  word_count : Nat
  paragraph_count : Nat
  sentence_count : Nat
  heading_count : HeadingCount
  has_h1 : Bool
  issues : List AnalysisIssue
  deriving DecidableEq

/-- `ContentAnalysis::analyze`. -/
def ContentAnalysis.analyze (content : String) (min_word_count : Nat) : ContentAnalysis :=
  let word_count := wordCount content
  let st : List AnalysisIssue × Int :=
    if word_count < min_word_count then
      ([AnalysisIssue.new .warning "Content is too short"
          ("Add more content. Aim for at least " ++ natToString min_word_count ++ " words.")],
       100 - 20)
    else ([], 100)
  let paragraph_count := ((splitOnSub content "\n\n").filter (fun p => !(trimStr p = ""))).length
  let sentence_count := countCharMatches content (fun c => c = '.' || c = '!' || c = '?')
  let heading_count := (rustLines content).foldl headingStep HeadingCount.zero
  let has_h1 := decide (heading_count.h1 > 0)
  let st :=
    if heading_count.h1 = 0 then
      (st.1 ++ [AnalysisIssue.new .error "No H1 heading found"
          "Add an H1 heading that includes your focus keyword."], st.2 - 20)
    else if heading_count.h1 > 1 then
      (st.1 ++ [AnalysisIssue.new .warning "Multiple H1 headings"
          "Use only one H1 heading per page."], st.2 - 10)
    else st
  let st :=
    if heading_count.h2 = 0 ∧ word_count > 300 then
      (st.1 ++ [AnalysisIssue.new .info "No subheadings used"
          "Break up your content with H2 subheadings for better readability."], st.2 - 5)
    else st
  { score := i32Max st.2 0
    word_count := word_count
    paragraph_count := paragraph_count
    sentence_count := sentence_count
    heading_count := heading_count
    has_h1 := has_h1
    issues := st.1 }

/-- `KeywordAnalysis`. -/
structure KeywordAnalysis where
  score : Int
  focus_keyword : Option String
  keyword_count : Nat
  keyword_density : ℚ
  in_first_paragraph : Bool
  in_headings : Bool
  in_url : Bool
  issues : List AnalysisIssue
  deriving DecidableEq

/-- `ReadabilityAnalysis`. -/
structure ReadabilityAnalysis where
  score : Int
  flesch_reading_ease : ℚ
  flesch_kincaid_grade : ℚ
  avg_sentence_length : ℚ
  avg_word_length : ℚ
  passive_voice_percentage : ℚ
  transition_word_percentage : ℚ
  issues : List AnalysisIssue
  deriving DecidableEq

/-- `LinkAnalysis`. -/
structure LinkAnalysis where
  score : Int
  internal_links : Nat
  external_links : Nat
  broken_links : List String
  nofollow_links : Nat
  issues : List AnalysisIssue
  deriving DecidableEq

/-- `ImageAnalysis`. -/
structure ImageAnalysis where
  score : Int
  total_images : Nat
  images_with_alt : Nat
  images_with_keyword : Nat
  large_images : List String
  issues : List AnalysisIssue
  deriving DecidableEq

/-- `TechnicalAnalysis`. -/
structure TechnicalAnalysis where
  score : Int
  has_canonical : Bool
  has_robots_meta : Bool
  has_open_graph : Bool
  has_twitter_card : Bool
  has_schema : Bool
  page_load_time : Option ℚ
  mobile_friendly : Bool
  issues : List AnalysisIssue
  deriving DecidableEq

/-- `SuggestionPriority`. -/
inductive SuggestionPriority where
  | high
  | medium
  | low
  deriving DecidableEq

/-- `SeoSuggestion`. -/
structure SeoSuggestion where
  category : String
  priority : SuggestionPriority
  title : String
  description : String
  action : Option String
  deriving DecidableEq

/-- `ImageInput`. -/
structure ImageInput where
  src : String
  alt : Option String
  deriving DecidableEq

/-- `AnalysisInput` (`page_load_time` as an exact rational). -/
structure AnalysisInput where
  title : String
  meta_description : Option String
  content : String
  url : String
  focus_keyword : Option String
  headings : List String
  internal_links : Nat
  external_links : Nat
  nofollow_links : Nat
  broken_links : List String
  images : List ImageInput
  large_images : List String
  has_canonical : Bool
  has_robots_meta : Bool
  has_open_graph : Bool
  has_twitter_card : Bool
  has_schema : Bool
  page_load_time : Option ℚ
  mobile_friendly : Bool

/-- `SeoAnalysis` (ids and the timestamp as caller-supplied `Nat`s). -/
structure SeoAnalysis where
  id : Nat
  content_id : Nat
  overall_score : SeoScore
  title_analysis : TitleAnalysis
  meta_analysis : MetaAnalysis
  content_analysis : ContentAnalysis
  keyword_analysis : KeywordAnalysis
  readability_analysis : ReadabilityAnalysis
  link_analysis : LinkAnalysis
  image_analysis : ImageAnalysis
  technical_analysis : TechnicalAnalysis
  suggestions : List SeoSuggestion
  analyzed_at : Nat

/-! ### Analysis service (`src/services/analysis.rs`) -/

/-- `AnalysisService::analyze_keywords`. -/
def AnalysisService.analyze_keywords (settings : AnalysisSettings) (data : AnalysisInput) :
    KeywordAnalysis :=
  match data.focus_keyword with
  | some kw =>
    let content_lower := lowerStr data.content
    let kw_lower := lowerStr kw
    let word_count := wordCount data.content
    let kw_count := strCountMatches content_lower kw_lower
    let kw_density : ℚ :=
      if word_count > 0 then ((kw_count : ℚ) / (word_count : ℚ)) * 100 else 0
    let first_para := match splitOnSub data.content "\n\n" with
      | p :: _ => p
      | [] => ""
    let in_first := strContains (lowerStr first_para) kw_lower
    let in_headings := data.headings.any (fun h => strContains (lowerStr h) kw_lower)
    let in_url := strContains (lowerStr data.url) kw_lower
    let st : List AnalysisIssue × Int :=
      if kw_count = 0 then
        ([AnalysisIssue.new .error "Focus keyword not found"
            "The focus keyword doesn\x27t appear in your content."], 100 - 30)
      else if kw_density < settings.target_keyword_density * 0.5 then
        ([AnalysisIssue.new .warning "Keyword density too low"
            "Consider using your focus keyword more often."], 100 - 15)
      else if kw_density > settings.max_keyword_density then
        ([AnalysisIssue.new .warning "Keyword density too high"
            "You may be over-optimizing. Use the keyword more naturally."], 100 - 10)
      else ([], 100)
    let st :=
      if !in_first then
        (st.1 ++ [AnalysisIssue.new .warning "Keyword not in first paragraph"
            "Include your focus keyword in the first paragraph."], st.2 - 10)
      else st
    let st :=
      if !in_headings then
        (st.1 ++ [AnalysisIssue.new .info "Keyword not in subheadings"
            "Consider adding the keyword to at least one subheading."], st.2 - 5)
      else st
    let st :=
      if !in_url then
        (st.1 ++ [AnalysisIssue.new .info "Keyword not in URL"
            "Including the keyword in the URL can help with SEO."], st.2 - 5)
      else st
    { score := i32Max st.2 0
      focus_keyword := some kw
      keyword_count := kw_count
      keyword_density := kw_density
      in_first_paragraph := in_first
      in_headings := in_headings
      in_url := in_url
      issues := st.1 }
  | none =>
    { score := i32Max 50 0
      focus_keyword := none
      keyword_count := 0
      keyword_density := 0
      in_first_paragraph := false
      in_headings := false
      in_url := false
      issues := [AnalysisIssue.new .warning "No focus keyword set"
          "Set a focus keyword to optimize your content."] }

/-- The fixed passive-voice marker set. -/
def passivePatterns : List String := ["was ", "were ", "been ", "being ", "is being", "are being"]

/-- The fixed transition-word set. -/
def transitionWords : List String :=
  ["however", "therefore", "moreover", "furthermore", "additionally",
   "consequently", "meanwhile", "nevertheless", "also", "first", "second", "finally"]

/-- `AnalysisService::analyze_readability`. -/
def AnalysisService.analyze_readability (content : String) : ReadabilityAnalysis :=
  let words := splitWsAux content.data []
  let word_count := words.length
  let sentence_count := natMax (countCharMatches content (fun c => c = '.' || c = '!' || c = '?')) 1
  let avg_sentence : ℚ := (word_count : ℚ) / (sentence_count : ℚ)
  let st : List AnalysisIssue × Int :=
    if avg_sentence > 25 then
      ([AnalysisIssue.new .warning "Sentences are too long"
          "Try to keep sentences under 20-25 words for better readability."], 100 - 15)
    else ([], 100)
  let total_chars := (words.map byteLen).sum
  let avg_word : ℚ := (total_chars : ℚ) / ((natMax word_count 1 : Nat) : ℚ)
  let flesch : ℚ := 206.835 - (1.015 * avg_sentence) - (84.6 * (avg_word / 5))
  let st :=
    if flesch < 30 then
      (st.1 ++ [AnalysisIssue.new .warning "Content is very difficult to read"
          "Simplify your language and use shorter sentences."], st.2 - 20)
    else if flesch < 50 then
      (st.1 ++ [AnalysisIssue.new .info "Content is fairly difficult to read"
          "Consider simplifying some sentences."], st.2 - 10)
    else st
  let grade : ℚ := 0.39 * avg_sentence + 11.8 * (avg_word / 5) - 15.59
  let passive_count := (passivePatterns.map (fun p => strCountMatches (lowerStr content) p)).sum
  let passive_pct : ℚ := ((passive_count : ℚ) / (sentence_count : ℚ)) * 100
  let st :=
    if passive_pct > 20 then
      (st.1 ++ [AnalysisIssue.new .info "High use of passive voice"
          "Try using more active voice for engaging content."], st.2 - 5)
    else st
  let transition_count := (transitionWords.map (fun t => strCountMatches (lowerStr content) t)).sum
  let transition_pct : ℚ := ((transition_count : ℚ) / (sentence_count : ℚ)) * 100
  let st :=
    if transition_pct < 20 ∧ sentence_count > 3 then
      (st.1 ++ [AnalysisIssue.new .info "Few transition words"
          "Use more transition words to improve flow."], st.2 - 5)
    else st
  { score := i32Max st.2 0
    flesch_reading_ease := ratMax flesch 0
    flesch_kincaid_grade := ratMax grade 0
    avg_sentence_length := avg_sentence
    avg_word_length := avg_word
    passive_voice_percentage := passive_pct
    transition_word_percentage := transition_pct
    issues := st.1 }

/-- `AnalysisService::analyze_links`. -/
def AnalysisService.analyze_links (data : AnalysisInput) : LinkAnalysis :=
  let st : List AnalysisIssue × Int :=
    if data.internal_links = 0 then
      ([AnalysisIssue.new .warning "No internal links"
          "Add internal links to help visitors discover more content."], 100 - 20)
    else if data.internal_links < 3 then
      ([AnalysisIssue.new .info "Few internal links"
          "Consider adding more internal links."], 100 - 10)
    else ([], 100)
  let st :=
    if data.external_links = 0 then
      (st.1 ++ [AnalysisIssue.new .info "No outbound links"
          "Linking to authoritative sources can improve credibility."], st.2 - 5)
    else st
  let st :=
    if !data.broken_links.isEmpty then
      (st.1 ++ [AnalysisIssue.new .error "Broken links detected"
          ("Fix " ++ natToString data.broken_links.length ++ " broken links.")], st.2 - 25)
    else st
  { score := i32Max st.2 0
    internal_links := data.internal_links
    external_links := data.external_links
    broken_links := data.broken_links
    nofollow_links := data.nofollow_links
    issues := st.1 }

/-- `AnalysisService::analyze_images`: note the result field
`images_with_keyword` is the literal `0` from the source; the computed
count only gates the informational issue. -/
def AnalysisService.analyze_images (data : AnalysisInput) : ImageAnalysis :=
  let st : List AnalysisIssue × Int :=
    if data.images.isEmpty then
      ([AnalysisIssue.new .info "No images in content"
          "Adding images can improve engagement and SEO."], 100 - 10)
    else
      let images_without_alt :=
        (data.images.filter (fun img => match img.alt with
          | none => true
          | some a => a = "")).length
      let st : List AnalysisIssue × Int :=
        if images_without_alt > 0 then
          ([AnalysisIssue.new .warning "Images missing alt text"
              (natToString images_without_alt ++ " images are missing alt text.")], 100 - 15)
        else ([], 100)
      let images_with_keyword := match data.focus_keyword with
        | some kw =>
          (data.images.filter (fun img => match img.alt with
            | some a => strContains (lowerStr a) (lowerStr kw)
            | none => false)).length
        | none => 0
      if images_with_keyword == 0 && data.focus_keyword.isSome then
        (st.1 ++ [AnalysisIssue.new .info "No images contain focus keyword"
            "Add the focus keyword to at least one image alt text."], st.2 - 5)
      else st
  { score := i32Max st.2 0
    total_images := data.images.length
    images_with_alt := (data.images.filter (fun img => match img.alt with
      | some a => a ≠ ""
      | none => false)).length
    images_with_keyword := 0
    large_images := data.large_images
    issues := st.1 }

/-- `AnalysisService::analyze_technical`. -/
def AnalysisService.analyze_technical (data : AnalysisInput) : TechnicalAnalysis :=
  let st : List AnalysisIssue × Int :=
    if !data.has_canonical then
      ([AnalysisIssue.new .warning "No canonical URL"
          "Set a canonical URL to prevent duplicate content issues."], 100 - 15)
    else ([], 100)
  let st :=
    if !data.has_open_graph then
      (st.1 ++ [AnalysisIssue.new .info "Missing OpenGraph tags"
          "Add OpenGraph tags for better social sharing."], st.2 - 5)
    else st
  let st :=
    if !data.has_twitter_card then
      (st.1 ++ [AnalysisIssue.new .info "Missing Twitter Card tags"
          "Add Twitter Card tags for better Twitter sharing."], st.2 - 5)
    else st
  let st :=
    if !data.has_schema then
      (st.1 ++ [AnalysisIssue.new .info "No schema markup"
          "Add schema.org structured data for rich snippets."], st.2 - 10)
    else st
  { score := i32Max st.2 0
    has_canonical := data.has_canonical
    has_robots_meta := data.has_robots_meta
    has_open_graph := data.has_open_graph
    has_twitter_card := data.has_twitter_card
    has_schema := data.has_schema
    page_load_time := data.page_load_time
    mobile_friendly := data.mobile_friendly
    issues := st.1 }

/-- `AnalysisService::generate_suggestions`: the fixed four-trigger rule
table. -/
def AnalysisService.generate_suggestions (settings : AnalysisSettings)
    (title : TitleAnalysis) (meta : MetaAnalysis) (content : ContentAnalysis)
    (keyword : KeywordAnalysis) : List SeoSuggestion :=
  let s : List SeoSuggestion := []
  let s :=
    if title.score < 50 then
      s ++ [{ category := "Title", priority := .high, title := "Improve your title"
              description := "Your title needs significant improvement for SEO."
              action := some "Add focus keyword and optimize length." }]
    else s
  let s :=
    if meta.score < 50 then
      s ++ [{ category := "Meta Description", priority := .high, title := "Add meta description"
              description := "A good meta description improves click-through rates."
              action := some "Write a compelling 150-160 character description." }]
    else s
  let s :=
    if content.word_count < settings.min_word_count then
      s ++ [{ category := "Content", priority := .medium, title := "Add more content"
              description := "Your content has " ++ natToString content.word_count ++
                " words. Aim for at least " ++ natToString settings.min_word_count ++ "."
              action := none }]
    else s
  let s :=
    if keyword.focus_keyword = none then
      s ++ [{ category := "Keywords", priority := .medium, title := "Set a focus keyword"
              description := "A focus keyword helps optimize your content."
              action := none }]
    else s
  s

/-- `AnalysisService::analyze`: the eight sub-analyses, the truncating
integer average (`Int.div` models Rust `i32` division), and the
suggestion pass. -/
def AnalysisService.analyze (settings : AnalysisSettings) (content_id : Nat)
    (data : AnalysisInput) (id now : Nat) : SeoAnalysis :=
  let title_analysis := TitleAnalysis.analyze data.title data.focus_keyword
  let meta_analysis := MetaAnalysis.analyze data.meta_description data.focus_keyword
  let content_analysis := ContentAnalysis.analyze data.content settings.min_word_count
  let keyword_analysis := AnalysisService.analyze_keywords settings data
  let readability_analysis := AnalysisService.analyze_readability data.content
  let link_analysis := AnalysisService.analyze_links data
  let image_analysis := AnalysisService.analyze_images data
  let technical_analysis := AnalysisService.analyze_technical data
  let scores : List Int :=
    [title_analysis.score, meta_analysis.score, content_analysis.score,
     keyword_analysis.score, readability_analysis.score, link_analysis.score,
     image_analysis.score, technical_analysis.score]
  let overall_score := SeoScore.new (Int.tdiv scores.sum (scores.length : Int))
  let suggestions := AnalysisService.generate_suggestions settings
    title_analysis meta_analysis content_analysis keyword_analysis
  { id := id
    content_id := content_id
    overall_score := overall_score
    title_analysis := title_analysis
    meta_analysis := meta_analysis
    content_analysis := content_analysis
    keyword_analysis := keyword_analysis
    readability_analysis := readability_analysis
    link_analysis := link_analysis
    image_analysis := image_analysis
    technical_analysis := technical_analysis
    suggestions := suggestions
    analyzed_at := now }

/-! ### Robots model (`src/models/robots.rs`) -/

/-- First-character test (`str::starts_with(char)`). -/
def startsCh (s : String) (c : Char) : Bool :=
  match s.data with
  | [] => false
  | a :: _ => a = c

/-- `RobotsRule`. -/
structure RobotsRule where
  user_agent : String
  allow : List String
  disallow : List String
  crawl_delay : Option Nat
  deriving DecidableEq

/-- `RobotsTxt`. -/
structure RobotsTxt where
  rules : List RobotsRule
  sitemaps : List String
  crawl_delay : Option Nat
  custom_content : Option String
  deriving DecidableEq

/-- `RobotsTxt::new`. -/
def RobotsTxt.new : RobotsTxt :=
  { rules := [], sitemaps := [], crawl_delay := none, custom_content := none }

/-- The directive dispatch of `RobotsTxt::parse`, applied to one raw
line with the parser state (document so far, open rule block). -/
def robotsParseLine (st : RobotsTxt × Option RobotsRule) (rawLine : String) :
    RobotsTxt × Option RobotsRule :=
  let line := trimStr rawLine
  if line = "" || startsCh line '#' then st
  else
    match splitOnce ':' line with
    | some (directive, value) =>
      let d := lowerStr (trimStr directive)
      let v := trimStr value
      if d = "user-agent" then
        let robots := match st.2 with
          | some rule => { st.1 with rules := st.1.rules ++ [rule] }
          | none => st.1
        (robots, some { user_agent := v, allow := [], disallow := [], crawl_delay := none })
      else if d = "allow" then
        match st.2 with
        | some r => (st.1, some { r with allow := r.allow ++ [v] })
        | none => st
      else if d = "disallow" then
        match st.2 with
        | some r => (st.1, some { r with disallow := r.disallow ++ [v] })
        | none => st
      else if d = "crawl-delay" then
        match parseU32 v with
        | some delay =>
          match st.2 with
          | some r => (st.1, some { r with crawl_delay := some delay })
          | none => ({ st.1 with crawl_delay := some delay }, none)
        | none => st
      else if d = "sitemap" then
        ({ st.1 with sitemaps := st.1.sitemaps ++ [v] }, st.2)
      else st
    | none => st

/-- The end-of-input flush of `RobotsTxt::parse`: push the open block. -/
def flushState (st : RobotsTxt × Option RobotsRule) : RobotsTxt :=
  match st.2 with
  | some rule => { st.1 with rules := st.1.rules ++ [rule] }
  | none => st.1

/-- `RobotsTxt::parse`: fold the line state machine and flush the open
block at end of input. -/
def RobotsTxt.parse (content : String) : RobotsTxt :=
  flushState ((rustLines content).foldl robotsParseLine (RobotsTxt.new, none))

/-- The lines a rule block contributes to `RobotsTxt::to_string`
(including the blank separator line). -/
def robotsRuleLines (doc_delay : Option Nat) (rule : RobotsRule) : List String :=
  ["User-agent: " ++ rule.user_agent]
    ++ rule.allow.map (fun a => "Allow: " ++ a)
    ++ rule.disallow.map (fun d => "Disallow: " ++ d)
    ++ (match rule.crawl_delay.or doc_delay with
        | some delay => ["Crawl-delay: " ++ natToString delay]
        | none => [])
    ++ [""]

/-- All lines of `RobotsTxt::to_string` before the custom tail. -/
def robotsLines (doc : RobotsTxt) : List String :=
  (doc.rules.map (robotsRuleLines doc.crawl_delay)).flatten
    ++ doc.sitemaps.map (fun s => "Sitemap: " ++ s)

/-- Join lines with a trailing newline each (the `to_string` builder
emits every piece with a final `\n`). -/
def linesJoin (L : List String) : String :=
  L.foldr (fun l acc => l ++ "\n" ++ acc) ""

/-- `RobotsTxt::to_string`. -/
def RobotsTxt.to_string (doc : RobotsTxt) : String :=
  linesJoin (robotsLines doc)
    ++ (match doc.custom_content with
        | some custom => "\n" ++ custom ++ "\n"
        | none => "")

/-! ### Robots service (`src/services/robots.rs`) -/

/-- The allow loop of `RobotsService::is_allowed`: `true` as soon as an
allow pattern is a prefix of the path. -/
def robotsAllowLoop : List String → String → Bool
  | [], _ => false
  | a :: rest, path => if strStarts path a then true else robotsAllowLoop rest path

/-- The disallow loop of `RobotsService::is_allowed`: empty patterns are
skipped, a prefix match returns disallowed, exhaustion returns allowed. -/
def robotsDisallowLoop : List String → String → Bool
  | [], _ => true
  | d :: rest, path =>
    if d = "" then robotsDisallowLoop rest path
    else if strStarts path d then false
    else robotsDisallowLoop rest path

/-- The rule-block selection of `RobotsService::is_allowed` as written in
the source: the first block whose user-agent equals the query **or** is
`"*"`, with a (dead) fallback to the first `"*"` block. -/
def robotsSelectRule (robots : RobotsTxt) (user_agent : String) : Option RobotsRule :=
  (robots.rules.find? (fun r => r.user_agent = user_agent || r.user_agent = "*")).or
    (robots.rules.find? (fun r => r.user_agent = "*"))

/-- `RobotsService::is_allowed`. -/
def RobotsService.is_allowed (content path user_agent : String) : Bool :=
  let robots := RobotsTxt.parse content
  match robotsSelectRule robots user_agent with
  | some rule =>
    if robotsAllowLoop rule.allow path then true
    else robotsDisallowLoop rule.disallow path
  | none => true

/-- Modelled from the spec: the rule-block selection as the specification
states it — the block whose user-agent **exactly** equals the query, and
only if none exists the `"*"` wildcard block. -/
def robotsSelectRuleSpec (robots : RobotsTxt) (user_agent : String) : Option RobotsRule :=
  (robots.rules.find? (fun r => r.user_agent = user_agent)).or
    (robots.rules.find? (fun r => r.user_agent = "*"))

/-- Modelled from the spec: `is_allowed` with the exact-match-first block
selection the specification describes; the per-block decision is the
source's. -/
def robotsIsAllowedSpec (content path user_agent : String) : Bool :=
  let robots := RobotsTxt.parse content
  match robotsSelectRuleSpec robots user_agent with
  | some rule =>
    if robotsAllowLoop rule.allow path then true
    else robotsDisallowLoop rule.disallow path
  | none => true

/-! ### Score-bound lemmas for the analysers -/

/-- The claim's score interval. -/
def scoreInRange (s : Int) : Prop := 0 ≤ s ∧ s ≤ 100

theorem titleAnalyze_score_bounds (t : String) (fk : Option String) :
    scoreInRange (TitleAnalysis.analyze t fk).score := by
  simp only [scoreInRange, TitleAnalysis.analyze, i32Max]
  rcases fk with _ | kw
  · simp only []
    split_ifs <;> simp_all
  · rcases h : strFind (lowerStr t) (lowerStr kw) with _ | pos <;> simp only [h]
    all_goals split_ifs <;> simp_all

theorem metaAnalyze_score_bounds (d fk : Option String) :
    scoreInRange (MetaAnalysis.analyze d fk).score := by
  simp only [scoreInRange, MetaAnalysis.analyze, MetaAnalysis.missing, i32Max]
  rcases d with _ | d
  · simp
  · rcases fk with _ | kw <;> simp only [] <;> split_ifs <;> simp_all

theorem contentAnalyze_score_bounds (content : String) (mwc : Nat) :
    scoreInRange (ContentAnalysis.analyze content mwc).score := by
  simp only [scoreInRange, ContentAnalysis.analyze, i32Max]
  split_ifs <;> first
  | omega
  | (dsimp only; omega)

set_option maxHeartbeats 2000000 in
theorem keywordAnalyze_score_bounds (settings : AnalysisSettings) (data : AnalysisInput) :
    scoreInRange (AnalysisService.analyze_keywords settings data).score := by
  simp only [scoreInRange, AnalysisService.analyze_keywords, i32Max]
  rcases data.focus_keyword with _ | kw <;> simp only []
  · split_ifs <;> simp_all
  · split_ifs <;> first
    | omega
    | (dsimp only; omega)

set_option maxHeartbeats 2000000 in
theorem readabilityAnalyze_score_bounds (content : String) :
    scoreInRange (AnalysisService.analyze_readability content).score := by
  simp only [scoreInRange, AnalysisService.analyze_readability, i32Max]
  split_ifs <;> first
  | omega
  | (dsimp only; omega)

theorem linksAnalyze_score_bounds (data : AnalysisInput) :
    scoreInRange (AnalysisService.analyze_links data).score := by
  simp only [scoreInRange, AnalysisService.analyze_links, i32Max]
  split_ifs <;> first
  | omega
  | (dsimp only; omega)

theorem imagesAnalyze_score_bounds (data : AnalysisInput) :
    scoreInRange (AnalysisService.analyze_images data).score := by
  simp only [scoreInRange, AnalysisService.analyze_images, i32Max]
  split_ifs <;> first
  | omega
  | (dsimp only; omega)

theorem technicalAnalyze_score_bounds (data : AnalysisInput) :
    scoreInRange (AnalysisService.analyze_technical data).score := by
  simp only [scoreInRange, AnalysisService.analyze_technical, i32Max]
  split_ifs <;> first
  | omega
  | (dsimp only; omega)

theorem seoScoreNew_score_bounds (x : Int) : scoreInRange (SeoScore.new x).score := by
  simp only [scoreInRange, SeoScore.new, i32Max, i32Min]
  split_ifs <;> omega

/-- C1: for every `AnalysisInput` (with arbitrary settings, including
empty strings, zero counts and absent optional fields), each of the
eight sub-analysis scores returned by `AnalysisService::analyze` and the
overall `SeoScore.score` lie in `[0, 100]`. -/
theorem claim_C1_all_scores_in_range (settings : AnalysisSettings) (content_id : Nat)
    (data : AnalysisInput) (id now : Nat) :
    scoreInRange (AnalysisService.analyze settings content_id data id now).title_analysis.score ∧
    scoreInRange (AnalysisService.analyze settings content_id data id now).meta_analysis.score ∧
    scoreInRange (AnalysisService.analyze settings content_id data id now).content_analysis.score ∧
    scoreInRange (AnalysisService.analyze settings content_id data id now).keyword_analysis.score ∧
    scoreInRange (AnalysisService.analyze settings content_id data id now).readability_analysis.score ∧
    scoreInRange (AnalysisService.analyze settings content_id data id now).link_analysis.score ∧
    scoreInRange (AnalysisService.analyze settings content_id data id now).image_analysis.score ∧
    scoreInRange (AnalysisService.analyze settings content_id data id now).technical_analysis.score ∧
    scoreInRange (AnalysisService.analyze settings content_id data id now).overall_score.score :=
  ⟨titleAnalyze_score_bounds data.title data.focus_keyword,
   metaAnalyze_score_bounds data.meta_description data.focus_keyword,
   contentAnalyze_score_bounds data.content settings.min_word_count,
   keywordAnalyze_score_bounds settings data,
   readabilityAnalyze_score_bounds data.content,
   linksAnalyze_score_bounds data,
   imagesAnalyze_score_bounds data,
   technicalAnalyze_score_bounds data,
   seoScoreNew_score_bounds _⟩

/-! ### The spec's end-to-end scenario (claim C6) -/

/-- The end-to-end scenario input: title `"Short"`, focus keyword
`"widgets"`, no meta description, empty content, and zero/empty/false
everything else. -/
def c6Input : AnalysisInput :=
  { title := "Short"
    meta_description := none
    content := ""
    url := ""
    focus_keyword := some "widgets"
    headings := []
    internal_links := 0
    external_links := 0
    nofollow_links := 0
    broken_links := []
    images := []
    large_images := []
    has_canonical := false
    has_robots_meta := false
    has_open_graph := false
    has_twitter_card := false
    has_schema := false
    page_load_time := none
    mobile_friendly := false }

theorem readability_empty_content_score :
    (AnalysisService.analyze_readability "").score = 100 := by
  norm_num [AnalysisService.analyze_readability, countCharMatches, splitWsAux, byteLen,
    passivePatterns, transitionWords, strCountMatches, lowerStr, countOccs, countOccsAux,
    natMax, i32Max]
  simp only [List.cons_ne_nil, reduceIte]
  norm_num

/-- C6 counterexample: in the end-to-end scenario the Keyword sub-score
is 50, not the claimed 70 — besides the −30 zero-occurrence deduction,
the −10 not-in-first-paragraph, −5 not-in-headings and −5 not-in-URL
deductions also fire. -/
theorem c6_keyword_score_is_50_not_70 :
    (AnalysisService.analyze AnalysisSettings.default 0 c6Input 0 0).keyword_analysis.score = 50 ∧
    (AnalysisService.analyze AnalysisSettings.default 0 c6Input 0 0).keyword_analysis.score ≠ 70 := by
  constructor <;> decide

/-- C6 (amended): in the end-to-end scenario the Title sub-score is 60,
Meta is 0, Content is 60, and Keyword is 50 (the −30 zero-occurrence,
−10 not-in-first-paragraph, −5 not-in-headings, −5 not-in-URL deductions
all fire); the overall score equals the integer-truncated average of the
eight sub-scores (here 62). -/
theorem claim_C6_end_to_end_scenario :
    (AnalysisService.analyze AnalysisSettings.default 0 c6Input 0 0).title_analysis.score = 60 ∧
    (AnalysisService.analyze AnalysisSettings.default 0 c6Input 0 0).meta_analysis.score = 0 ∧
    (AnalysisService.analyze AnalysisSettings.default 0 c6Input 0 0).content_analysis.score = 60 ∧
    (AnalysisService.analyze AnalysisSettings.default 0 c6Input 0 0).keyword_analysis.score = 50 ∧
    (AnalysisService.analyze AnalysisSettings.default 0 c6Input 0 0).overall_score.score =
      Int.tdiv
        ((AnalysisService.analyze AnalysisSettings.default 0 c6Input 0 0).title_analysis.score +
         (AnalysisService.analyze AnalysisSettings.default 0 c6Input 0 0).meta_analysis.score +
         (AnalysisService.analyze AnalysisSettings.default 0 c6Input 0 0).content_analysis.score +
         (AnalysisService.analyze AnalysisSettings.default 0 c6Input 0 0).keyword_analysis.score +
         (AnalysisService.analyze AnalysisSettings.default 0 c6Input 0 0).readability_analysis.score +
         (AnalysisService.analyze AnalysisSettings.default 0 c6Input 0 0).link_analysis.score +
         (AnalysisService.analyze AnalysisSettings.default 0 c6Input 0 0).image_analysis.score +
         (AnalysisService.analyze AnalysisSettings.default 0 c6Input 0 0).technical_analysis.score) 8 ∧
    (AnalysisService.analyze AnalysisSettings.default 0 c6Input 0 0).overall_score.score = 62 := by
  refine ⟨by decide, by decide, by decide, by decide, ?_, ?_⟩
  · show (SeoScore.new (Int.tdiv
        ([(TitleAnalysis.analyze "Short" (some "widgets")).score,
          (MetaAnalysis.analyze none (some "widgets")).score,
          (ContentAnalysis.analyze "" 300).score,
          (AnalysisService.analyze_keywords AnalysisSettings.default c6Input).score,
          (AnalysisService.analyze_readability "").score,
          (AnalysisService.analyze_links c6Input).score,
          (AnalysisService.analyze_images c6Input).score,
          (AnalysisService.analyze_technical c6Input).score].sum) 8)).score =
      Int.tdiv
        ((TitleAnalysis.analyze "Short" (some "widgets")).score +
         (MetaAnalysis.analyze none (some "widgets")).score +
         (ContentAnalysis.analyze "" 300).score +
         (AnalysisService.analyze_keywords AnalysisSettings.default c6Input).score +
         (AnalysisService.analyze_readability "").score +
         (AnalysisService.analyze_links c6Input).score +
         (AnalysisService.analyze_images c6Input).score +
         (AnalysisService.analyze_technical c6Input).score) 8
    rw [readability_empty_content_score]
    decide
  · show (SeoScore.new (Int.tdiv
        ([(TitleAnalysis.analyze "Short" (some "widgets")).score,
          (MetaAnalysis.analyze none (some "widgets")).score,
          (ContentAnalysis.analyze "" 300).score,
          (AnalysisService.analyze_keywords AnalysisSettings.default c6Input).score,
          (AnalysisService.analyze_readability "").score,
          (AnalysisService.analyze_links c6Input).score,
          (AnalysisService.analyze_images c6Input).score,
          (AnalysisService.analyze_technical c6Input).score].sum) 8)).score = 62
    rw [readability_empty_content_score]
    decide

/-! ### Hardcoded `images_with_keyword` (claim C10) -/

/-- Scenario input for C10: one image whose alt text contains the focus
keyword. -/
def c10Input : AnalysisInput :=
  { c6Input with images := [{ src := "image.png", alt := some "best widgets" }] }

/-- C10: `images_with_keyword` in the analysis result is always 0 — the
output field is the hardcoded literal — even when image alt texts
contain the focus keyword; the computed count only gates the −5 issue
(at the concrete input the alt text contains the keyword, so the issue
list is empty and the image score stays 100). -/
theorem claim_C10_images_with_keyword_always_zero :
    (∀ (settings : AnalysisSettings) (content_id : Nat) (data : AnalysisInput) (id now : Nat),
      (AnalysisService.analyze settings content_id data id now).image_analysis.images_with_keyword = 0) ∧
    (AnalysisService.analyze AnalysisSettings.default 0 c10Input 0 0).image_analysis.images_with_keyword = 0 ∧
    (AnalysisService.analyze AnalysisSettings.default 0 c10Input 0 0).image_analysis.issues = [] ∧
    (AnalysisService.analyze AnalysisSettings.default 0 c10Input 0 0).image_analysis.score = 100 :=
  ⟨fun _ _ _ _ _ => rfl, by decide, by decide, by decide⟩

/-! ### Redirect matching (claims C2, C5, C7) -/

/-- Modelled from the spec's words (for comparison with the source): the
per-rule match with the source pattern normalized to lowercase in
**every** arm, including the regex arm. -/
def redirectRuleMatchesSpecLower (ci : Bool) (url_to_check : String) (r : Redirect) : Bool :=
  let source := if ci then lowerStr r.source_url else r.source_url
  match r.match_type with
  | .exact => url_to_check == source
  | .prefixMatch => strStarts url_to_check source
  | .contains => strContains url_to_check source
  | .regex =>
    match compileRegex source.data with
    | some re => regexIsMatch re url_to_check.data
    | none => false

/-- Modelled from the spec's words: `findMatch` with the fully lowercased
pattern. -/
def findRedirectSpecLower (svc : RedirectService) (url : String) : Option Redirect :=
  let url_to_check := if svc.settings.case_insensitive then lowerStr url else url
  svc.redirects.find? (fun r =>
    r.is_active && redirectRuleMatchesSpecLower svc.settings.case_insensitive url_to_check r)

theorem findRedirectAux_eq_find? (ci : Bool) (u : String) (rs : List Redirect) :
    findRedirectAux ci u rs =
      rs.find? (fun r => r.is_active && redirectRuleMatches ci u r) := by
  induction rs with
  | nil => rfl
  | cons r rest ih =>
    simp only [findRedirectAux, List.find?]
    cases hA : r.is_active <;> cases hM : redirectRuleMatches ci u r <;>
      simp [hA, hM, ih]

/-- C2 first-match rule for the concrete example (Prefix on `/a`). -/
def c2Rule1 : Redirect :=
  { Redirect.new "/a" "/x" .permanent 1 0 with match_type := .prefixMatch }

/-- C2 second, more specific rule (Exact on `/a/b`). -/
def c2Rule2 : Redirect :=
  { Redirect.new "/a/b" "/y" .permanent 2 0 with match_type := .exact }

/-- C2 service with the two rules in insertion order (default settings,
case-insensitive on). -/
def c2Service : RedirectService :=
  { RedirectService.new with redirects := [c2Rule1, c2Rule2] }

/-- C2 counterexample service: one active `Regex` rule whose pattern
contains an uppercase letter, with the case-insensitive setting on. -/
def c2RegexRule : Redirect :=
  { Redirect.new "/A" "/x" .permanent 3 0 with match_type := .regex }

/-- C2 counterexample service. -/
def c2RegexService : RedirectService :=
  { RedirectService.new with redirects := [c2RegexRule] }

/-- C2 counterexample: with case-insensitivity on, the regex arm does
**not** lowercase the rule's source pattern — the code compiles the
stored pattern `"/A"` and fails to match the lowercased url `"/a"`,
while the claim's description (lowercase both) yields a match. -/
theorem c2_regex_source_not_lowercased :
    c2RegexService.find_redirect "/a" = none ∧
    findRedirectSpecLower c2RegexService "/a" = some c2RegexRule := by
  constructor <;> decide

/-- C2 (amended): `find_redirect` scans the rules in insertion order,
skips inactive rules, and returns the first rule matched by the
dispatch that lowercases the url and — for the `Exact`/`Prefix`/
`Contains` arms only — the source pattern (the `Regex` arm compiles the
stored pattern unmodified); in the two-rule Prefix/Exact example, the
first (Prefix) rule wins over the later more specific Exact rule. -/
theorem claim_C2_find_redirect_first_match :
    (∀ (svc : RedirectService) (url : String),
      svc.find_redirect url =
        svc.redirects.find? (fun r =>
          r.is_active && redirectRuleMatches svc.settings.case_insensitive
            (if svc.settings.case_insensitive then lowerStr url else url) r)) ∧
    c2Service.find_redirect "/a/b" = some c2Rule1 ∧
    c2Rule1.is_active = true ∧ c2Rule2.is_active = true ∧
    redirectRuleMatches c2Service.settings.case_insensitive (lowerStr "/a/b") c2Rule2 = true :=
  ⟨fun svc url => findRedirectAux_eq_find? _ _ _, by decide, by decide, by decide, by decide⟩

/-- C5 rule: Regex match type **with** the `is_regex` flag set. -/
def c5Rule : Redirect :=
  { Redirect.new "^/old/(.*)$" "/new/$1" .permanent 4 0 with
      match_type := .regex, is_regex := true }

/-- C5 counterexample rule: Regex match type, `is_regex` flag clear
(which is what `Redirect::new` produces for the flag). -/
def c5RuleNoFlag : Redirect := { c5Rule with is_regex := false }

/-- C5 counterexample: a rule whose matchType is `Regex` but whose
`is_regex` flag is false gets its target returned verbatim — the
claim's "every rule whose matchType is Regex is regex-replaced" fails. -/
theorem c5_regex_type_without_flag_is_verbatim :
    c5RuleNoFlag.match_type = MatchType.regex ∧
    c5RuleNoFlag.get_target "/old/page" = "/new/$1" ∧
    c5RuleNoFlag.get_target "/old/page" ≠ "/new/page" := by
  refine ⟨by decide, by decide, by decide⟩

/-- C5 (amended): `get_target` applies the regex-template replacement
only when **both** `is_regex` is set and the match type is `Regex`; any
rule with a non-Regex match type, and any rule without the flag, gets
the stored target verbatim; with both set, the capture template is
applied (`"^/old/(.*)$"` with target `"/new/$1"` maps `"/old/page"` to
`"/new/page"`). -/
theorem claim_C5_get_target :
    (∀ (r : Redirect) (url : String), r.match_type ≠ MatchType.regex →
      r.get_target url = r.target_url) ∧
    (∀ (r : Redirect) (url : String), r.is_regex = false →
      r.get_target url = r.target_url) ∧
    c5Rule.get_target "/old/page" = "/new/page" := by
  refine ⟨?_, ?_, by decide⟩
  · intro r url h
    simp [Redirect.get_target, h]
  · intro r url h
    simp [Redirect.get_target, h]

/-- Witness for `claim_C5_get_target`. -/
theorem claim_C5_get_target_witness :
    c2Rule1.get_target "/zz" = c2Rule1.target_url ∧
    c5RuleNoFlag.get_target "/old/page" = c5RuleNoFlag.target_url :=
  ⟨claim_C5_get_target.1 c2Rule1 "/zz" (by decide),
   claim_C5_get_target.2.1 c5RuleNoFlag "/old/page" (by decide)⟩

/-- C7 rule `/a → /b`. -/
def c7RuleAB : Redirect := Redirect.new "/a" "/b" .permanent 1 0

/-- C7 rule `/b → /c`. -/
def c7RuleBC : Redirect := Redirect.new "/b" "/c" .permanent 2 0

/-- C7 service with the two-hop chain. -/
def c7Service : RedirectService :=
  { RedirectService.new with redirects := [c7RuleAB, c7RuleBC] }

/-- C7 counterexample: `test_url("/a")` reports target `/b` even though
an active rule matches `/b` — the result is a single hop, not the
claimed chain resolution (which could only stop on no-match, a repeated
URL, or the chain limit, none of which hold here; `RedirectSettings`
has no chain-limit field at all). -/
theorem c7_test_url_does_not_follow_chains :
    (c7Service.test_url "/a").matched = true ∧
    (c7Service.test_url "/a").target = some "/b" ∧
    c7Service.find_redirect "/b" = some c7RuleBC ∧
    (c7Service.test_url "/b").target = some "/c" := by
  refine ⟨by decide, by decide, by decide, by decide⟩

/-- C7 (amended): `test_url` performs exactly one `find_redirect` +
`get_target` step: if a rule matches it reports that rule's id, source,
resolved target and status code, otherwise a non-match result; it never
follows the target into another lookup (no chain walking, loop
detection, or chain-length limit exists — `RedirectSettings` has no
such field). -/
theorem claim_C7_test_url_single_step :
    (∀ (svc : RedirectService) (url : String) (r : Redirect),
      svc.find_redirect url = some r →
      svc.test_url url =
        { matched := true, redirect_id := some r.id, source := some r.source_url,
          target := some (r.get_target url),
          status_code := some r.redirect_type.status_code }) ∧
    (∀ (svc : RedirectService) (url : String),
      svc.find_redirect url = none →
      svc.test_url url =
        { matched := false, redirect_id := none, source := none, target := none,
          status_code := none }) ∧
    (c7Service.test_url "/a").target = some "/b" := by
  refine ⟨?_, ?_, by decide⟩
  · intro svc url r h
    simp [RedirectService.test_url, h]
  · intro svc url h
    simp [RedirectService.test_url, h]

/-- Witness for `claim_C7_test_url_single_step`. -/
theorem claim_C7_test_url_single_step_witness :
    c7Service.test_url "/a" =
      { matched := true, redirect_id := some c7RuleAB.id, source := some c7RuleAB.source_url,
        target := some (c7RuleAB.get_target "/a"),
        status_code := some c7RuleAB.redirect_type.status_code } ∧
    c7Service.test_url "/nowhere" =
      { matched := false, redirect_id := none, source := none, target := none,
        status_code := none } :=
  ⟨claim_C7_test_url_single_step.1 c7Service "/a" c7RuleAB (by decide),
   claim_C7_test_url_single_step.2.1 c7Service "/nowhere" (by decide)⟩

/-! ### Robots queries (claims C3, C4) -/

theorem robotsAllowLoop_eq_any (l : List String) (path : String) :
    robotsAllowLoop l path = l.any (fun a => strStarts path a) := by
  induction l with
  | nil => rfl
  | cons a rest ih =>
    simp only [robotsAllowLoop, List.any_cons]
    cases h : strStarts path a <;> simp [h, ih]

theorem robotsDisallowLoop_eq_any (l : List String) (path : String) :
    robotsDisallowLoop l path = !(l.any (fun d => !(d == "") && strStarts path d)) := by
  induction l with
  | nil => rfl
  | cons d rest ih =>
    simp only [robotsDisallowLoop, List.any_cons]
    by_cases hd : d = ""
    · simp [hd, ih]
    · cases h : strStarts path d <;> simp [hd, h, ih]

/-- The explicit wildcard fallback in `is_allowed` is dead code: whenever
the first search (user-agent equal **or** wildcard) fails, the
wildcard-only search fails too. -/
theorem robotsSelectRule_fallback_dead (robots : RobotsTxt) (ua : String) :
    robotsSelectRule robots ua =
      robots.rules.find? (fun r => r.user_agent = ua || r.user_agent = "*") := by
  unfold robotsSelectRule
  cases h : robots.rules.find? (fun r => r.user_agent = ua || r.user_agent = "*") with
  | some r => simp [Option.or, h]
  | none =>
    simp only [Option.or, h]
    rw [List.find?_eq_none] at h ⊢
    intro x hx hw
    exact h x hx (by simp_all)

/-- C3 failing input: a `*` block precedes an exactly-matching `bot`
block. -/
def c3Content : String :=
  "User-agent: *\nDisallow: /private\n\nUser-agent: bot\nDisallow: /tmp\n"

/-- C3: the code selects the **first** block whose user-agent equals the
query or is `*`, so a `*` block appearing earlier shadows a later
exactly-matching block: for the failing input, `is_allowed` applies the
`*` block's `Disallow: /private` and returns `false`, while the spec's
exact-match-first selection returns `true`; moreover the code's explicit
wildcard fallback (`.or_else`) is dead code, witnessing that
exact-match-first was the intent. -/
theorem claim_C3_exact_match_precedence :
    RobotsService.is_allowed c3Content "/private/x" "bot" = false ∧
    robotsIsAllowedSpec c3Content "/private/x" "bot" = true ∧
    (RobotsTxt.parse c3Content).rules.map (fun r => r.user_agent) = ["*", "bot"] ∧
    (∀ (robots : RobotsTxt) (ua : String),
      robotsSelectRule robots ua =
        robots.rules.find? (fun r => r.user_agent = ua || r.user_agent = "*")) :=
  ⟨by decide, by decide, by decide, robotsSelectRule_fallback_dead⟩

/-- C4 concrete document: `{userAgent "*", allow ["/public"], disallow ["/"]}`. -/
def c4Content : String := "User-agent: *\nAllow: /public\nDisallow: /"

/-- C4: within the selected block, any allow pattern that is a prefix of
the path yields allowed regardless of the disallow list; only otherwise
are the disallow patterns consulted, where an empty pattern is a no-op
and a prefix match yields disallowed; with no matching pattern, or no
selected block, the result is allowed.  In particular
`isAllowed("/public/x", "*")` is `true` for the block
`{allow ["/public"], disallow ["/"]}`. -/
theorem claim_C4_allow_checked_before_disallow :
    (∀ (content path ua : String) (rule : RobotsRule),
      robotsSelectRule (RobotsTxt.parse content) ua = some rule →
      RobotsService.is_allowed content path ua =
        (rule.allow.any (fun a => strStarts path a) ||
         !(rule.disallow.any (fun d => !(d == "") && strStarts path d)))) ∧
    (∀ (content path ua : String),
      robotsSelectRule (RobotsTxt.parse content) ua = none →
      RobotsService.is_allowed content path ua = true) ∧
    RobotsService.is_allowed c4Content "/public/x" "*" = true := by
  refine ⟨?_, ?_, by decide⟩
  · intro content path ua rule h
    simp only [RobotsService.is_allowed]
    rw [h]
    simp only []
    rw [robotsAllowLoop_eq_any, robotsDisallowLoop_eq_any]
    cases hA : rule.allow.any (fun a => strStarts path a) <;> simp [hA]
  · intro content path ua h
    simp only [RobotsService.is_allowed]
    rw [h]

/-- Witness for `claim_C4_allow_checked_before_disallow`. -/
theorem claim_C4_allow_checked_before_disallow_witness :
    RobotsService.is_allowed c4Content "/public/x" "*" =
      ((RobotsRule.mk "*" ["/public"] ["/"] none).allow.any
          (fun a => strStarts "/public/x" a) ||
        !((RobotsRule.mk "*" ["/public"] ["/"] none).disallow.any
          (fun d => !(d == "") && strStarts "/public/x" d))) ∧
    RobotsService.is_allowed "" "/anything" "bot" = true :=
  ⟨claim_C4_allow_checked_before_disallow.1 c4Content "/public/x" "*"
      (RobotsRule.mk "*" ["/public"] ["/"] none) (by decide),
   claim_C4_allow_checked_before_disallow.2.1 "" "/anything" "bot" (by decide)⟩

/-! ### Hit counting (claim C9) -/

/-- `record_hit` applied `n` times (all at model time `now`). -/
def recordHitN (r : Redirect) (now : Nat) : Nat → Redirect
  | 0 => r
  | n + 1 => (recordHitN r now n).record_hit now

/-- `log_404` applied `n` times with the same url. -/
def log404N (svc : RedirectService) (url : String) (referrer user_agent : Option String)
    (id now : Nat) : Nat → RedirectService
  | 0 => svc
  | n + 1 => (log404N svc url referrer user_agent id now n).log_404 url referrer user_agent id now

/-- The 404-map entries recorded for a url. -/
def nfEntriesFor (log : List (String × NotFoundLog)) (url : String) :
    List (String × NotFoundLog) :=
  log.filter (fun p => p.1 = url)

theorem recordHitN_hit_count (r : Redirect) (now n : Nat) :
    (recordHitN r now n).hit_count = r.hit_count + n := by
  induction n with
  | zero => simp [recordHitN]
  | succ n ih => simp [recordHitN, Redirect.record_hit, ih]; omega

theorem recordHitN_last_accessed (r : Redirect) (now n : Nat) (h : 0 < n) :
    (recordHitN r now n).last_accessed = some now := by
  cases n with
  | zero => omega
  | succ n => simp [recordHitN, Redirect.record_hit]

theorem nfLookup_none_not_mem :
    ∀ {l : List (String × NotFoundLog)} {url : String},
      nfLookup l url = none → ∀ p ∈ l, p.1 ≠ url := by
  intro l url h p hp
  induction l with
  | nil => simp at hp
  | cons q t ih =>
    simp only [nfLookup] at h
    by_cases hq : q.1 = url
    · simp [hq] at h
    · rcases List.mem_cons.mp hp with rfl | hp2
      · exact hq
      · exact ih (by simpa [hq] using h) hp2

theorem nfLookup_append_none {a b : List (String × NotFoundLog)} {url : String}
    (h : nfLookup a url = none) : nfLookup (a ++ b) url = nfLookup b url := by
  induction a with
  | nil => simp
  | cons q t ih =>
    simp only [nfLookup, List.cons_append] at h ⊢
    by_cases hq : q.1 = url <;> simp_all

theorem nfUpdate_append_none {a b : List (String × NotFoundLog)} {url : String}
    (f : NotFoundLog → NotFoundLog) (h : nfLookup a url = none) :
    nfUpdate f (a ++ b) url = a ++ nfUpdate f b url := by
  induction a with
  | nil => simp
  | cons q t ih =>
    simp only [nfLookup] at h
    simp only [List.cons_append, nfUpdate]
    by_cases hq : q.1 = url <;> simp_all

theorem nfEntriesFor_append (a b : List (String × NotFoundLog)) (url : String) :
    nfEntriesFor (a ++ b) url = nfEntriesFor a url ++ nfEntriesFor b url := by
  simp [nfEntriesFor]

theorem nfEntriesFor_of_lookup_none {l : List (String × NotFoundLog)} {url : String}
    (h : nfLookup l url = none) : nfEntriesFor l url = [] := by
  simp only [nfEntriesFor, List.filter_eq_nil_iff]
  intro p hp
  simpa using nfLookup_none_not_mem h p hp

/-- The single entry the log holds for `url` after `n ≥ 1` calls. -/
def nfEntryAfter (url : String) (referrer user_agent : Option String) (id now : Nat)
    (n : Nat) : NotFoundLog :=
  { NotFoundLog.new url id now with
      referrer := referrer, user_agent := user_agent, hit_count := (n : Int) }

theorem log404N_log_shape (svc : RedirectService) (url : String)
    (referrer user_agent : Option String) (id now : Nat)
    (hset : svc.settings.log_404s = true)
    (hnone : nfLookup svc.not_found_log url = none) :
    ∀ n : Nat, 0 < n →
      (log404N svc url referrer user_agent id now n).not_found_log =
        svc.not_found_log ++ [(url, nfEntryAfter url referrer user_agent id now n)] ∧
      (log404N svc url referrer user_agent id now n).settings = svc.settings := by
  intro n hn
  induction n with
  | zero => omega
  | succ n ih =>
    rcases Nat.eq_zero_or_pos n with hz | hpos
    · subst hz
      simp only [log404N, RedirectService.log_404, hset, Bool.not_true]
      rw [hnone]
      refine ⟨?_, rfl⟩
      simp only [nfEntryAfter, NotFoundLog.new]
      rfl
    · obtain ⟨hlog, hsets⟩ := ih hpos
      simp only [log404N, RedirectService.log_404, hsets, hset, Bool.not_true, hlog]
      rw [nfLookup_append_none hnone]
      simp only [nfLookup, if_pos rfl]
      rw [nfUpdate_append_none _ hnone]
      refine ⟨?_, rfl⟩
      have hrec : (nfEntryAfter url referrer user_agent id now n).record_hit now =
          nfEntryAfter url referrer user_agent id now (n + 1) := by
        simp [NotFoundLog.record_hit, nfEntryAfter, NotFoundLog.new]
      simp [nfUpdate, hrec]

theorem log404N_single_entry (svc : RedirectService) (url : String)
    (referrer user_agent : Option String) (id now : Nat) (n : Nat)
    (hset : svc.settings.log_404s = true)
    (hnone : nfLookup svc.not_found_log url = none) (hn : 0 < n) :
    (nfEntriesFor (log404N svc url referrer user_agent id now n).not_found_log url).map
      (fun p => p.2.hit_count) = [(n : Int)] := by
  obtain ⟨hlog, -⟩ :=
    log404N_log_shape svc url referrer user_agent id now hset hnone n hn
  rw [hlog, nfEntriesFor_append, nfEntriesFor_of_lookup_none hnone]
  simp [nfEntriesFor, nfEntryAfter]

/-! ### Hit-count monotonicity across the service operations (claim C9) -/

/-- The state-mutating operations of `RedirectService`, with the
`Uuid`/`Utc::now` environment effects as explicit payloads
(`process_redirect` is included because it takes `&mut self`, though it
mutates nothing). -/
inductive RedirectOp where
  | addRedirect (r : Redirect)
  | add301 (source target : String) (id now : Nat)
  | add302 (source target : String) (id now : Nat)
  | log404 (url : String) (referrer user_agent : Option String) (id now : Nat)
  | createFrom404 (url target : String) (id now : Nat)
  | ignore404 (url : String)
  | removeRedirect (id : Nat)
  | updateRedirect (id : Nat) (source target : Option String) (rt : Option RedirectType) (now : Nat)
  | setActive (id : Nat) (active : Bool) (now : Nat)
  | importCsv (csv : String) (idSeed now : Nat)
  | processRedirect (url : String)

/-- Apply an operation to the service state. -/
def RedirectOp.apply : RedirectOp → RedirectService → RedirectService
  | .addRedirect r, svc => svc.add_redirect r
  | .add301 s t id now, svc => svc.add_301 s t id now
  | .add302 s t id now, svc => svc.add_302 s t id now
  | .log404 url ref ua id now, svc => svc.log_404 url ref ua id now
  | .createFrom404 url t id now, svc => (svc.create_redirect_from_404 url t id now).1
  | .ignore404 url, svc => svc.ignore_404 url
  | .removeRedirect id, svc => (svc.remove_redirect id).1
  | .updateRedirect id s t rt now, svc => (svc.update_redirect id s t rt now).1
  | .setActive id a now, svc => (svc.set_redirect_active id a now).1
  | .importCsv csv seed now, svc => (svc.import_csv csv seed now).1
  | .processRedirect url, svc => (svc.process_redirect url).1

/-- Freshness side conditions on the environment payloads: ids created by
`Uuid::now_v7()` never collide with existing rule ids, and a rule handed
to `add_redirect` carries a non-negative count (every `Redirect` the
program builds starts at 0). -/
def RedirectOp.wellFormed : RedirectOp → RedirectService → Prop
  | .addRedirect r, svc => (∀ q ∈ svc.redirects, q.id ≠ r.id) ∧ 0 ≤ r.hit_count
  | .add301 _ _ id _, svc => ∀ q ∈ svc.redirects, q.id ≠ id
  | .add302 _ _ id _, svc => ∀ q ∈ svc.redirects, q.id ≠ id
  | .createFrom404 _ _ id _, svc => ∀ q ∈ svc.redirects, q.id ≠ id
  | .importCsv _ seed _, svc => ∀ q ∈ svc.redirects, q.id < seed
  | _, _ => True

/-- No rule present before and after (matched by id) loses hits. -/
def rulesHitMono (old new : List Redirect) : Prop :=
  ∀ r ∈ old, ∀ r' ∈ new, r.id = r'.id → r.hit_count ≤ r'.hit_count

/-- No 404 entry present before and after (matched by url key) loses
hits. -/
def nfHitMono (old new : List (String × NotFoundLog)) : Prop :=
  ∀ p ∈ old, ∀ p' ∈ new, p.1 = p'.1 → p.2.hit_count ≤ p'.2.hit_count

/-- All hit counts in the state are non-negative. -/
def hitsNonNeg (svc : RedirectService) : Prop :=
  (∀ r ∈ svc.redirects, 0 ≤ r.hit_count) ∧
  (∀ p ∈ svc.not_found_log, 0 ≤ p.2.hit_count)

theorem eq_of_mem_nodup_ids {l : List Redirect}
    (h : (l.map (fun r => r.id)).Nodup) {r r' : Redirect}
    (hr : r ∈ l) (hr' : r' ∈ l) (heq : r.id = r'.id) : r = r' := by
  induction l with
  | nil => simp at hr
  | cons q t ih =>
    simp only [List.map_cons, List.nodup_cons] at h
    rcases List.mem_cons.mp hr with rfl | hr2 <;>
      rcases List.mem_cons.mp hr' with rfl | hr'2
    · rfl
    · exact absurd (heq ▸ (List.mem_map_of_mem (fun r => r.id) hr'2)) h.1
    · exact absurd (heq ▸ (List.mem_map_of_mem (fun r => r.id) hr2)) h.1
    · exact ih h.2 hr2 hr'2

theorem rulesHitMono_of_nodup {l : List Redirect}
    (h : (l.map (fun r => r.id)).Nodup) : rulesHitMono l l := by
  intro r hr r' hr' heq
  rw [eq_of_mem_nodup_ids h hr hr' heq]

theorem rulesHitMono_append {l news : List Redirect}
    (h : (l.map (fun r => r.id)).Nodup)
    (hfresh : ∀ n ∈ news, ∀ q ∈ l, q.id ≠ n.id) :
    rulesHitMono l (l ++ news) := by
  intro r hr r' hr' heq
  rcases List.mem_append.mp hr' with hr'2 | hr'2
  · rw [eq_of_mem_nodup_ids h hr hr'2 heq]
  · exact absurd heq (hfresh r' hr'2 r hr)

theorem removeById_subset {id : Nat} : ∀ {l : List Redirect}, ∀ r ∈ removeById id l, r ∈ l := by
  intro l
  induction l with
  | nil => simp [removeById]
  | cons q t ih =>
    intro r hr
    simp only [removeById] at hr
    by_cases hq : q.id = id
    · simp only [if_pos hq] at hr
      exact List.mem_cons_of_mem _ hr
    · simp only [if_neg hq] at hr
      rcases List.mem_cons.mp hr with rfl | hr2
      · exact List.mem_cons_self _ _
      · exact List.mem_cons_of_mem _ (ih r hr2)

theorem mapFirstById_mem {id : Nat} {f : Redirect → Redirect} :
    ∀ {l : List Redirect}, ∀ r' ∈ mapFirstById id f l,
      r' ∈ l ∨ ∃ q ∈ l, q.id = id ∧ r' = f q := by
  intro l
  induction l with
  | nil => simp [mapFirstById]
  | cons q t ih =>
    intro r' hr'
    simp only [mapFirstById] at hr'
    by_cases hq : q.id = id
    · simp only [if_pos hq] at hr'
      rcases List.mem_cons.mp hr' with rfl | hr'2
      · exact Or.inr ⟨q, List.mem_cons_self _ _, hq, rfl⟩
      · exact Or.inl (List.mem_cons_of_mem _ hr'2)
    · simp only [if_neg hq] at hr'
      rcases List.mem_cons.mp hr' with rfl | hr'2
      · exact Or.inl (List.mem_cons_self _ _)
      · rcases ih r' hr'2 with h | ⟨p, hp, hpid, hpf⟩
        · exact Or.inl (List.mem_cons_of_mem _ h)
        · exact Or.inr ⟨p, List.mem_cons_of_mem _ hp, hpid, hpf⟩

theorem rulesHitMono_mapFirstById {l : List Redirect} {id : Nat} {f : Redirect → Redirect}
    (h : (l.map (fun r => r.id)).Nodup)
    (hf : ∀ r, (f r).id = r.id ∧ r.hit_count ≤ (f r).hit_count) :
    rulesHitMono l (mapFirstById id f l) := by
  intro r hr r' hr' heq
  rcases mapFirstById_mem r' hr' with h2 | ⟨q, hq, hqid, rfl⟩
  · rw [eq_of_mem_nodup_ids h hr h2 heq]
  · have : r = q := eq_of_mem_nodup_ids h hr hq (heq.trans (hf q).1)
    subst this
    exact (hf r).2

theorem rulesHitMono_subset {l new : List Redirect}
    (h : (l.map (fun r => r.id)).Nodup) (hsub : ∀ r ∈ new, r ∈ l) :
    rulesHitMono l new := by
  intro r hr r' hr' heq
  rw [eq_of_mem_nodup_ids h hr (hsub r' hr') heq]

theorem eq_of_mem_nodup_keys {l : List (String × NotFoundLog)}
    (h : (l.map (fun p => p.1)).Nodup) {p p' : String × NotFoundLog}
    (hp : p ∈ l) (hp' : p' ∈ l) (heq : p.1 = p'.1) : p = p' := by
  induction l with
  | nil => simp at hp
  | cons q t ih =>
    simp only [List.map_cons, List.nodup_cons] at h
    rcases List.mem_cons.mp hp with rfl | hp2 <;>
      rcases List.mem_cons.mp hp' with rfl | hp'2
    · rfl
    · exact absurd (heq ▸ (List.mem_map_of_mem (fun p => p.1) hp'2)) h.1
    · exact absurd (heq ▸ (List.mem_map_of_mem (fun p => p.1) hp2)) h.1
    · exact ih h.2 hp2 hp'2

theorem nfHitMono_of_nodup {l : List (String × NotFoundLog)}
    (h : (l.map (fun p => p.1)).Nodup) : nfHitMono l l := by
  intro p hp p' hp' heq
  rw [eq_of_mem_nodup_keys h hp hp' heq]

theorem nfUpdate_mem {f : NotFoundLog → NotFoundLog} {url : String} :
    ∀ {l : List (String × NotFoundLog)}, ∀ p' ∈ nfUpdate f l url,
      p' ∈ l ∨ ∃ q ∈ l, q.1 = url ∧ p' = (q.1, f q.2) := by
  intro l
  induction l with
  | nil => simp [nfUpdate]
  | cons q t ih =>
    intro p' hp'
    simp only [nfUpdate] at hp'
    by_cases hq : q.1 = url
    · simp only [if_pos hq] at hp'
      rcases List.mem_cons.mp hp' with rfl | hp'2
      · exact Or.inr ⟨q, List.mem_cons_self _ _, hq, rfl⟩
      · exact Or.inl (List.mem_cons_of_mem _ hp'2)
    · simp only [if_neg hq] at hp'
      rcases List.mem_cons.mp hp' with rfl | hp'2
      · exact Or.inl (List.mem_cons_self _ _)
      · rcases ih p' hp'2 with h2 | ⟨p, hp, hpu, hpf⟩
        · exact Or.inl (List.mem_cons_of_mem _ h2)
        · exact Or.inr ⟨p, List.mem_cons_of_mem _ hp, hpu, hpf⟩

theorem nfHitMono_update {l : List (String × NotFoundLog)} {url : String}
    {f : NotFoundLog → NotFoundLog}
    (h : (l.map (fun p => p.1)).Nodup)
    (hf : ∀ e, e.hit_count ≤ (f e).hit_count) :
    nfHitMono l (nfUpdate f l url) := by
  intro p hp p' hp' heq
  rcases nfUpdate_mem p' hp' with h2 | ⟨q, hq, hqu, rfl⟩
  · rw [eq_of_mem_nodup_keys h hp h2 heq]
  · have : p = q := eq_of_mem_nodup_keys h hp hq heq
    subst this
    exact hf p.2

theorem nfHitMono_append_fresh {l : List (String × NotFoundLog)}
    {news : List (String × NotFoundLog)}
    (h : (l.map (fun p => p.1)).Nodup)
    (hfresh : ∀ n ∈ news, ∀ q ∈ l, q.1 ≠ n.1) :
    nfHitMono l (l ++ news) := by
  intro p hp p' hp' heq
  rcases List.mem_append.mp hp' with hp'2 | hp'2
  · rw [eq_of_mem_nodup_keys h hp hp'2 heq]
  · exact absurd heq (hfresh p' hp'2 p hp)

theorem updateFields_id_hits (source target : Option String) (rt : Option RedirectType)
    (now : Nat) (r : Redirect) :
    (updateFields source target rt now r).id = r.id ∧
    (updateFields source target rt now r).hit_count = r.hit_count := by
  rcases source with _ | s <;> rcases target with _ | t <;> rcases rt with _ | ty <;>
    simp [updateFields]

theorem process_redirect_state_id (svc : RedirectService) (url : String) :
    (svc.process_redirect url).1 = svc := by
  unfold RedirectService.process_redirect
  cases svc.find_redirect url <;> rfl

theorem importCsvAux_shape (now : Nat) :
    ∀ (lines : List (Nat × String)) (svc : RedirectService) (nid imp skp : Nat)
      (errs : List String),
      ∃ news : List Redirect,
        (importCsvAux now lines svc nid imp skp errs).1.redirects = svc.redirects ++ news ∧
        (∀ n ∈ news, n.hit_count = 0 ∧ nid ≤ n.id) ∧
        (importCsvAux now lines svc nid imp skp errs).1.not_found_log = svc.not_found_log ∧
        (importCsvAux now lines svc nid imp skp errs).1.settings = svc.settings := by
  intro lines
  induction lines with
  | nil =>
    intro svc nid imp skp errs
    exact ⟨[], by simp [importCsvAux], by simp, rfl, rfl⟩
  | cons hd tl ih =>
    intro svc nid imp skp errs
    obtain ⟨ln, raw⟩ := hd
    simp only [importCsvAux]
    split
    · exact ih svc nid imp skp errs
    · split
      · split
        · exact ih svc nid imp (skp + 1) _
        · rename_i p0 p1 ptail _ _
          obtain ⟨news, h1, h2, h3, h4⟩ :=
            ih { svc with redirects := svc.redirects ++
                  [Redirect.new (trimMatches '"' (trimStr p0)) (trimMatches '"' (trimStr p1))
                    (csvTypeOf ptail) nid now] }
              (nid + 1) (imp + 1) skp errs
          refine ⟨Redirect.new (trimMatches '"' (trimStr p0)) (trimMatches '"' (trimStr p1))
              (csvTypeOf ptail) nid now :: news, ?_, ?_, h3, h4⟩
          · rw [h1]
            simp
          · intro n hn
            rcases List.mem_cons.mp hn with rfl | hn2
            · exact ⟨rfl, Nat.le_refl _⟩
            · exact ⟨(h2 n hn2).1, Nat.le_of_succ_le (h2 n hn2).2⟩
      · exact ih svc nid imp (skp + 1) _

theorem redirectOp_hits_mono (op : RedirectOp) (svc : RedirectService)
    (hwf : op.wellFormed svc)
    (hids : (svc.redirects.map (fun r => r.id)).Nodup)
    (hkeys : (svc.not_found_log.map (fun p => p.1)).Nodup) :
    rulesHitMono svc.redirects (op.apply svc).redirects ∧
    nfHitMono svc.not_found_log (op.apply svc).not_found_log ∧
    (hitsNonNeg svc → hitsNonNeg (op.apply svc)) := by
  cases op with
  | addRedirect r =>
    simp only [RedirectOp.apply, RedirectService.add_redirect]
    refine ⟨rulesHitMono_append hids ?_, nfHitMono_of_nodup hkeys, ?_⟩
    · intro n hn q hq
      rcases List.mem_singleton.mp hn with rfl
      exact hwf.1 q hq
    · rintro ⟨h1, h2⟩
      refine ⟨?_, h2⟩
      intro x hx
      rcases List.mem_append.mp hx with hx2 | hx2
      · exact h1 x hx2
      · rcases List.mem_singleton.mp hx2 with rfl
        exact hwf.2
  | add301 s t id now =>
    simp only [RedirectOp.apply, RedirectService.add_301]
    refine ⟨rulesHitMono_append hids ?_, nfHitMono_of_nodup hkeys, ?_⟩
    · intro n hn q hq
      rcases List.mem_singleton.mp hn with rfl
      exact hwf q hq
    · rintro ⟨h1, h2⟩
      refine ⟨?_, h2⟩
      intro x hx
      rcases List.mem_append.mp hx with hx2 | hx2
      · exact h1 x hx2
      · rcases List.mem_singleton.mp hx2 with rfl
        simp [Redirect.new]
  | add302 s t id now =>
    simp only [RedirectOp.apply, RedirectService.add_302]
    refine ⟨rulesHitMono_append hids ?_, nfHitMono_of_nodup hkeys, ?_⟩
    · intro n hn q hq
      rcases List.mem_singleton.mp hn with rfl
      exact hwf q hq
    · rintro ⟨h1, h2⟩
      refine ⟨?_, h2⟩
      intro x hx
      rcases List.mem_append.mp hx with hx2 | hx2
      · exact h1 x hx2
      · rcases List.mem_singleton.mp hx2 with rfl
        simp [Redirect.new]
  | log404 url ref ua id now =>
    simp only [RedirectOp.apply, RedirectService.log_404]
    by_cases hs : svc.settings.log_404s
    · simp only [hs, Bool.not_true, Bool.false_eq_true, if_false]
      cases hl : nfLookup svc.not_found_log url with
      | some e =>
        refine ⟨rulesHitMono_of_nodup hids, nfHitMono_update hkeys ?_, ?_⟩
        · intro x
          simp [NotFoundLog.record_hit]
        · rintro ⟨h1, h2⟩
          refine ⟨h1, ?_⟩
          intro p hp
          rcases nfUpdate_mem p hp with h3 | ⟨q, hq, hqu, rfl⟩
          · exact h2 p h3
          · have := h2 q hq
            simp only [NotFoundLog.record_hit]
            omega
      | none =>
        refine ⟨rulesHitMono_of_nodup hids, nfHitMono_append_fresh hkeys ?_, ?_⟩
        · intro n hn q hq
          rcases List.mem_singleton.mp hn with rfl
          exact nfLookup_none_not_mem hl q hq
        · rintro ⟨h1, h2⟩
          refine ⟨h1, ?_⟩
          intro p hp
          rcases List.mem_append.mp hp with hp2 | hp2
          · exact h2 p hp2
          · rcases List.mem_singleton.mp hp2 with rfl
            simp [NotFoundLog.new]
    · simp only [hs]
      exact ⟨rulesHitMono_of_nodup hids, nfHitMono_of_nodup hkeys, fun h => h⟩
  | createFrom404 url t id now =>
    simp only [RedirectOp.apply, RedirectService.create_redirect_from_404]
    refine ⟨rulesHitMono_append hids ?_, nfHitMono_update hkeys ?_, ?_⟩
    · intro n hn q hq
      rcases List.mem_singleton.mp hn with rfl
      exact hwf q hq
    · intro x
      simp
    · rintro ⟨h1, h2⟩
      constructor
      · intro x hx
        rcases List.mem_append.mp hx with hx2 | hx2
        · exact h1 x hx2
        · rcases List.mem_singleton.mp hx2 with rfl
          simp [Redirect.new]
      · intro p hp
        rcases nfUpdate_mem p hp with h3 | ⟨q, hq, hqu, rfl⟩
        · exact h2 p h3
        · simpa using h2 q hq
  | ignore404 url =>
    simp only [RedirectOp.apply, RedirectService.ignore_404]
    refine ⟨rulesHitMono_of_nodup hids, nfHitMono_update hkeys ?_, ?_⟩
    · intro x
      simp
    · rintro ⟨h1, h2⟩
      refine ⟨h1, ?_⟩
      intro p hp
      rcases nfUpdate_mem p hp with h3 | ⟨q, hq, hqu, rfl⟩
      · exact h2 p h3
      · simpa using h2 q hq
  | removeRedirect id =>
    simp only [RedirectOp.apply, RedirectService.remove_redirect]
    by_cases hf : (svc.redirects.find? (fun r => r.id = id)).isSome
    · simp only [hf, if_true]
      refine ⟨rulesHitMono_subset hids (fun r hr => removeById_subset r hr),
        nfHitMono_of_nodup hkeys, ?_⟩
      rintro ⟨h1, h2⟩
      exact ⟨fun r hr => h1 r (removeById_subset r hr), h2⟩
    · simp only [hf, if_false]
      exact ⟨rulesHitMono_of_nodup hids, nfHitMono_of_nodup hkeys, fun h => h⟩
  | updateRedirect id s t rt now =>
    simp only [RedirectOp.apply, RedirectService.update_redirect]
    by_cases hf : (svc.redirects.find? (fun r => r.id = id)).isSome
    · simp only [hf, if_true]
      refine ⟨rulesHitMono_mapFirstById hids ?_, nfHitMono_of_nodup hkeys, ?_⟩
      · intro r
        obtain ⟨h1, h2⟩ := updateFields_id_hits s t rt now r
        exact ⟨h1, h2.ge⟩
      · rintro ⟨h1, h2⟩
        refine ⟨?_, h2⟩
        intro r hr
        rcases mapFirstById_mem r hr with h3 | ⟨q, hq, hqid, rfl⟩
        · exact h1 r h3
        · rw [(updateFields_id_hits s t rt now q).2]
          exact h1 q hq
    · simp only [hf, if_false]
      exact ⟨rulesHitMono_of_nodup hids, nfHitMono_of_nodup hkeys, fun h => h⟩
  | setActive id a now =>
    simp only [RedirectOp.apply, RedirectService.set_redirect_active]
    by_cases hf : (svc.redirects.find? (fun r => r.id = id)).isSome
    · simp only [hf, if_true]
      refine ⟨rulesHitMono_mapFirstById hids ?_, nfHitMono_of_nodup hkeys, ?_⟩
      · intro r
        simp
      · rintro ⟨h1, h2⟩
        refine ⟨?_, h2⟩
        intro r hr
        rcases mapFirstById_mem r hr with h3 | ⟨q, hq, hqid, rfl⟩
        · exact h1 r h3
        · simpa using h1 q hq
    · simp only [hf, if_false]
      exact ⟨rulesHitMono_of_nodup hids, nfHitMono_of_nodup hkeys, fun h => h⟩
  | importCsv csv seed now =>
    simp only [RedirectOp.apply, RedirectService.import_csv]
    obtain ⟨news, h1, h2, h3, h4⟩ :=
      importCsvAux_shape now (rustLines csv).enum svc seed 0 0 []
    refine ⟨?_, ?_, ?_⟩
    · rw [h1]
      refine rulesHitMono_append hids ?_
      intro n hn q hq
      have := (h2 n hn).2
      have := hwf q hq
      omega
    · rw [h3]
      exact nfHitMono_of_nodup hkeys
    · rintro ⟨ha, hb⟩
      constructor
      · intro x hx
        rw [h1] at hx
        rcases List.mem_append.mp hx with hx2 | hx2
        · exact ha x hx2
        · rw [(h2 x hx2).1]
      · intro p hp
        rw [h3] at hp
        exact hb p hp
  | processRedirect url =>
    simp only [RedirectOp.apply]
    rw [process_redirect_state_id]
    exact ⟨rulesHitMono_of_nodup hids, nfHitMono_of_nodup hkeys, fun h => h⟩

/-- C9: `record_hit` called `n` times adds exactly `n` to `hit_count`
and sets `last_accessed`; `log_404` called `n ≥ 1` times on a url with
no prior entry (404 logging on) leaves exactly one entry for that url
with `hit_count = n`; and across every `RedirectService` operation
(with fresh `Uuid` payloads and well-keyed state) no rule's or entry's
hit count decreases, and non-negativity of all hit counts is
preserved. -/
theorem claim_C9_hit_counting :
    (∀ (r : Redirect) (now n : Nat), (recordHitN r now n).hit_count = r.hit_count + n) ∧
    (∀ (r : Redirect) (now n : Nat), 0 < n → (recordHitN r now n).last_accessed = some now) ∧
    (∀ (svc : RedirectService) (url : String) (referrer user_agent : Option String)
       (id now n : Nat),
      svc.settings.log_404s = true → nfLookup svc.not_found_log url = none → 0 < n →
      (nfEntriesFor (log404N svc url referrer user_agent id now n).not_found_log url).map
        (fun p => p.2.hit_count) = [(n : Int)]) ∧
    (∀ (op : RedirectOp) (svc : RedirectService),
      op.wellFormed svc →
      (svc.redirects.map (fun r => r.id)).Nodup →
      (svc.not_found_log.map (fun p => p.1)).Nodup →
      rulesHitMono svc.redirects (op.apply svc).redirects ∧
      nfHitMono svc.not_found_log (op.apply svc).not_found_log ∧
      (hitsNonNeg svc → hitsNonNeg (op.apply svc))) :=
  ⟨recordHitN_hit_count,
   recordHitN_last_accessed,
   log404N_single_entry,
   redirectOp_hits_mono⟩

/-- Witness for `claim_C9_hit_counting`. -/
theorem claim_C9_hit_counting_witness :
    (recordHitN c7RuleAB 5 3).hit_count = c7RuleAB.hit_count + 3 ∧
    (recordHitN c7RuleAB 5 3).last_accessed = some 5 ∧
    (nfEntriesFor (log404N RedirectService.new "/gone" none none 9 5 2).not_found_log
        "/gone").map (fun p => p.2.hit_count) = [(2 : Int)] ∧
    (rulesHitMono RedirectService.new.redirects
        ((RedirectOp.log404 "/gone" none none 9 5).apply RedirectService.new).redirects ∧
     nfHitMono RedirectService.new.not_found_log
        ((RedirectOp.log404 "/gone" none none 9 5).apply RedirectService.new).not_found_log ∧
     (hitsNonNeg RedirectService.new →
       hitsNonNeg ((RedirectOp.log404 "/gone" none none 9 5).apply RedirectService.new))) :=
  ⟨claim_C9_hit_counting.1 c7RuleAB 5 3,
   claim_C9_hit_counting.2.1 c7RuleAB 5 3 (by decide),
   claim_C9_hit_counting.2.2.1 RedirectService.new "/gone" none none 9 5 2
     (by decide) (by decide) (by decide),
   claim_C9_hit_counting.2.2.2 (RedirectOp.log404 "/gone" none none 9 5)
     RedirectService.new trivial (by decide) (by decide)⟩

/-! ### Decimal round trip (towards claim C8) -/

theorem natToDigitsAux_acc (fuel : Nat) : ∀ (n : Nat) (acc : List Char),
    natToDigitsAux fuel n acc = natToDigitsAux fuel n [] ++ acc := by
  induction fuel with
  | zero => intro n acc; simp [natToDigitsAux]
  | succ fuel ih =>
    intro n acc
    simp only [natToDigitsAux]
    by_cases h : n < 10
    · simp [h]
    · simp only [if_neg h]
      rw [ih (n / 10) (Nat.digitChar (n % 10) :: acc), ih (n / 10) [Nat.digitChar (n % 10)]]
      simp

theorem natToDigitsAux_extra : ∀ (n : Nat) (f1 f2 : Nat) (acc : List Char),
    n < f1 → n < f2 → natToDigitsAux f1 n acc = natToDigitsAux f2 n acc := by
  intro n
  induction n using Nat.strong_induction_on with
  | _ n ih =>
    intro f1 f2 acc h1 h2
    cases f1 with
    | zero => omega
    | succ g1 =>
      cases f2 with
      | zero => omega
      | succ g2 =>
        simp only [natToDigitsAux]
        by_cases h : n < 10
        · simp [h]
        · simp only [if_neg h]
          have hdiv : n / 10 < n := Nat.div_lt_self (by omega) (by omega)
          exact ih (n / 10) hdiv g1 g2 _ (by omega) (by omega)

theorem digitVal_digitChar (m : Nat) (h : m < 10) : digitVal (Nat.digitChar m) = some m := by
  interval_cases m <;> decide

theorem digitChar_isDigit (m : Nat) (h : m < 10) : (Nat.digitChar m).isDigit = true := by
  interval_cases m <;> decide

theorem parseDigitsAux_append (a b : List Char) (v : Nat) :
    parseDigitsAux (a ++ b) v =
      match parseDigitsAux a v with
      | some w => parseDigitsAux b w
      | none => none := by
  induction a generalizing v with
  | nil => simp [parseDigitsAux]
  | cons c t ih =>
    simp only [List.cons_append, parseDigitsAux]
    cases digitVal c <;> simp [ih]

theorem natToDigits_value : ∀ (n fuel : Nat), n < fuel → ∀ v : Nat,
    parseDigitsAux (natToDigitsAux fuel n []) v =
      some (v * 10 ^ (natToDigitsAux fuel n []).length + n) := by
  intro n
  induction n using Nat.strong_induction_on with
  | _ n ih =>
    intro fuel hf v
    cases fuel with
    | zero => omega
    | succ g =>
      by_cases h : n < 10
      · simp [natToDigitsAux, h, parseDigitsAux, digitVal_digitChar n h]
      · have hdiv : n / 10 < n := Nat.div_lt_self (by omega) (by omega)
        have hstep : natToDigitsAux (g + 1) n [] =
            natToDigitsAux g (n / 10) [] ++ [Nat.digitChar (n % 10)] := by
          simp only [natToDigitsAux, if_neg h]
          exact natToDigitsAux_acc g (n / 10) [Nat.digitChar (n % 10)]
        rw [hstep, parseDigitsAux_append]
        rw [ih (n / 10) hdiv g (by omega) v]
        simp only [parseDigitsAux, digitVal_digitChar (n % 10) (Nat.mod_lt n (by omega))]
        simp only [List.length_append, List.length_cons, List.length_nil]
        have hdm := Nat.div_add_mod n 10
        rw [pow_succ, ← mul_assoc]
        generalize v * 10 ^ (natToDigitsAux g (n / 10) []).length = q
        simp only [parseDigitsAux, Option.some.injEq]
        omega

theorem natToDigits_ne_nil (fuel n : Nat) (h : n < fuel) :
    natToDigitsAux fuel n [] ≠ [] := by
  cases fuel with
  | zero => omega
  | succ g =>
    simp only [natToDigitsAux]
    split
    · simp
    · rw [natToDigitsAux_acc]
      simp

theorem natToDigits_all_digits : ∀ (n fuel : Nat), n < fuel →
    ∀ c ∈ natToDigitsAux fuel n [], c.isDigit = true := by
  intro n
  induction n using Nat.strong_induction_on with
  | _ n ih =>
    intro fuel hf c hc
    cases fuel with
    | zero => omega
    | succ g =>
      by_cases h : n < 10
      · simp only [natToDigitsAux, if_pos h, List.mem_singleton] at hc
        subst hc
        exact digitChar_isDigit n h
      · have hdiv : n / 10 < n := Nat.div_lt_self (by omega) (by omega)
        simp only [natToDigitsAux, if_neg h] at hc
        rw [natToDigitsAux_acc] at hc
        rcases List.mem_append.mp hc with hc2 | hc2
        · exact ih (n / 10) hdiv g (by omega) c hc2
        · rcases List.mem_singleton.mp hc2 with rfl
          exact digitChar_isDigit (n % 10) (Nat.mod_lt n (by omega))

theorem isDigit_facts (c : Char) (h : c.isDigit = true) :
    c.isWhitespace = false ∧ c ≠ '+' ∧ c ≠ ':' ∧ c ≠ '\n' ∧ c ≠ '\r' ∧ c ≠ '#' := by
  simp only [Char.isDigit] at h
  have hl : 48 ≤ c.toNat ∧ c.toNat ≤ 57 := by
    rcases Bool.and_eq_true_iff.mp h with ⟨h1, h2⟩
    exact ⟨of_decide_eq_true h1, of_decide_eq_true h2⟩
  have hsp : c ≠ ' ' := by intro he; subst he; exact absurd hl (by decide)
  have htab : c ≠ '\t' := by intro he; subst he; exact absurd hl (by decide)
  have hcr : c ≠ '\r' := by intro he; subst he; exact absurd hl (by decide)
  have hnl : c ≠ '\n' := by intro he; subst he; exact absurd hl (by decide)
  have hplus : c ≠ '+' := by intro he; subst he; exact absurd hl (by decide)
  have hcolon : c ≠ ':' := by intro he; subst he; exact absurd hl (by decide)
  have hhash : c ≠ '#' := by intro he; subst he; exact absurd hl (by decide)
  refine ⟨?_, hplus, hcolon, hnl, hcr, hhash⟩
  simp [Char.isWhitespace, hsp, htab, hcr, hnl]

theorem parseU32_natToString (d : Nat) (h : d < 4294967296) :
    parseU32 (natToString d) = some d := by
  rcases hd : natToDigitsAux (d + 1) d [] with _ | ⟨c, t⟩
  · exact absurd hd (natToDigits_ne_nil (d + 1) d (by omega))
  · have hc : c.isDigit = true := by
      refine natToDigits_all_digits d (d + 1) (by omega) c ?_
      rw [hd]; exact List.mem_cons_self _ _
    have hplus : c ≠ '+' := (isDigit_facts c hc).2.1
    have hvalue := natToDigits_value d (d + 1) (by omega) 0
    rw [hd] at hvalue
    simp only [zero_mul, zero_add] at hvalue
    simp only [parseU32, natToString, hd, List.head?, List.tail]
    rw [if_neg (by simp [hplus])]
    simp only [hvalue]
    rw [if_pos h]

/-! ### Trim and line-splitting lemmas (towards claim C8) -/

theorem trim_parts {l : List Char} (h : trimData l = l) :
    l.dropWhile Char.isWhitespace = l ∧
    l.reverse.dropWhile Char.isWhitespace = l.reverse := by
  have h1 : l.dropWhile Char.isWhitespace <:+ l := List.dropWhile_suffix _
  have h2 : (l.dropWhile Char.isWhitespace).reverse.dropWhile Char.isWhitespace <:+
      (l.dropWhile Char.isWhitespace).reverse := List.dropWhile_suffix _
  have hlen : ((l.dropWhile Char.isWhitespace).reverse.dropWhile Char.isWhitespace).length
      = l.length := by
    have hc := congrArg List.length h
    simpa [trimData] using hc
  have ha := h1.length_le
  have hb := h2.length_le
  simp only [List.length_reverse] at hb
  have hd : l.dropWhile Char.isWhitespace = l := h1.eq_of_length (by omega)
  refine ⟨hd, ?_⟩
  rw [hd] at h2 hlen
  exact h2.eq_of_length (by simpa using hlen)

theorem trim_of_parts {l : List Char}
    (h1 : l.dropWhile Char.isWhitespace = l)
    (h2 : l.reverse.dropWhile Char.isWhitespace = l.reverse) : trimData l = l := by
  simp [trimData, h1, h2]

theorem head_not_ws_of_dropWhile_eq {c : Char} {t : List Char}
    (h : (c :: t).dropWhile Char.isWhitespace = c :: t) : c.isWhitespace = false := by
  by_cases hc : c.isWhitespace
  · rw [List.dropWhile_cons, if_pos hc] at h
    have hle := (List.dropWhile_sublist (l := t) Char.isWhitespace).length_le
    have := congrArg List.length h
    simp at this
    omega
  · simpa using hc

theorem trimData_lit_append {c : Char} {cs v : List Char}
    (hc : c.isWhitespace = false) (hv : trimData v = v) (hne : v ≠ []) :
    trimData (c :: cs ++ v) = c :: cs ++ v := by
  obtain ⟨h1, h2⟩ := trim_parts hv
  apply trim_of_parts
  · rw [List.cons_append, List.dropWhile_cons]
    simp [hc]
  · rcases hr : v.reverse with _ | ⟨a, t⟩
    · exact absurd (by simpa using congrArg List.reverse hr) hne
    · have ha : a.isWhitespace = false := head_not_ws_of_dropWhile_eq (hr ▸ h2)
      rw [show (c :: cs ++ v : List Char) = (c :: cs) ++ v from rfl, List.reverse_append, hr,
        List.cons_append, List.dropWhile_cons]
      simp [ha]

theorem trimData_space_value {v : List Char} (hv : trimData v = v) :
    trimData (' ' :: v) = v := by
  obtain ⟨h1, h2⟩ := trim_parts hv
  have hsp : (' ' : Char).isWhitespace = true := rfl
  simp [trimData, List.dropWhile_cons, hsp, h1, h2]

theorem trimmed_getLast_not_ws {v : List Char} (hv : trimData v = v) {c : Char}
    (hc : c.isWhitespace = true) : v.getLast? ≠ some c := by
  obtain ⟨-, h2⟩ := trim_parts hv
  rcases hr : v.reverse with _ | ⟨a, t⟩
  · have : v = [] := by simpa using congrArg List.reverse hr
    simp [this]
  · have ha : a.isWhitespace = false := head_not_ws_of_dropWhile_eq (hr ▸ h2)
    rw [← List.head?_reverse, hr]
    intro he
    rcases Option.some.injEq _ _ ▸ he with rfl
    rw [hc] at ha
    exact absurd ha (by simp)

theorem mem_trimData {l : List Char} : ∀ c ∈ trimData l, c ∈ l := by
  intro c hc
  simp only [trimData, List.mem_reverse] at hc
  have h1 := (List.dropWhile_sublist (l := (l.dropWhile Char.isWhitespace).reverse)
    (p := Char.isWhitespace)).subset hc
  simp only [List.mem_reverse] at h1
  exact (List.dropWhile_sublist (l := l) (p := Char.isWhitespace)).subset h1

theorem splitOnceData_mem {sep : Char} :
    ∀ {l a b : List Char}, splitOnceData sep l = some (a, b) →
      (∀ c ∈ a, c ∈ l) ∧ (∀ c ∈ b, c ∈ l) := by
  intro l
  induction l with
  | nil => intro a b h; simp [splitOnceData] at h
  | cons x t ih =>
    intro a b h
    simp only [splitOnceData] at h
    by_cases hx : x = sep
    · rw [if_pos hx] at h
      rcases h with ⟨rfl, rfl⟩
      exact ⟨by simp, fun c hc => List.mem_cons_of_mem _ hc⟩
    · rw [if_neg hx] at h
      rcases hs : splitOnceData sep t with _ | ⟨p, q⟩ <;> rw [hs] at h
      · simp at h
      · rcases Option.some.inj h with h2
        rcases Prod.mk.injEq _ _ _ _ ▸ h2 with ⟨rfl, rfl⟩
        obtain ⟨ihl, ihr⟩ := ih hs
        constructor
        · intro c hc
          rcases List.mem_cons.mp hc with rfl | hc2
          · exact List.mem_cons_self _ _
          · exact List.mem_cons_of_mem _ (ihl c hc2)
        · intro c hc
          exact List.mem_cons_of_mem _ (ihr c hc)

/-! ### Join/split inversion for lines (towards claim C8) -/

/-- Concatenate lines, each with a trailing newline (the data-level view
of the `to_string` builder). -/
def joinNl (L : List (List Char)) : List Char :=
  L.foldr (fun l acc => l ++ '\n' :: acc) []

theorem splitCharData_ne_nil (sep : Char) : ∀ l : List Char, splitCharData sep l ≠ [] := by
  intro l
  cases l with
  | nil => simp [splitCharData]
  | cons c cs =>
    simp only [splitCharData]
    rcases splitCharData sep cs with _ | ⟨h, t⟩
    · simp
    · by_cases hc : c = sep <;> simp [hc]

theorem splitCharData_append_cons (sep : Char) :
    ∀ {l : List Char}, sep ∉ l → ∀ rest : List Char,
      splitCharData sep (l ++ sep :: rest) = l :: splitCharData sep rest := by
  intro l
  induction l with
  | nil =>
    intro _ rest
    simp only [List.nil_append, splitCharData]
    rcases hs : splitCharData sep rest with _ | ⟨h, t⟩
    · exact absurd hs (splitCharData_ne_nil sep rest)
    · simp
  | cons c t ih =>
    intro hmem rest
    have hc : c ≠ sep := fun he => hmem (he ▸ List.mem_cons_self _ _)
    have ht : sep ∉ t := fun hin => hmem (List.mem_cons_of_mem _ hin)
    simp only [List.cons_append, splitCharData, List.append_eq]
    rw [ih ht rest]
    simp [hc]

theorem splitCharData_joinNl (L : List (List Char)) (h : ∀ l ∈ L, '\n' ∉ l) :
    splitCharData '\n' (joinNl L) = L ++ [[]] := by
  induction L with
  | nil => simp [joinNl, splitCharData]
  | cons l ls ih =>
    simp only [joinNl, List.foldr_cons]
    rw [splitCharData_append_cons '\n' (h l (List.mem_cons_self _ _))]
    rw [show (ls.foldr (fun l acc => l ++ '\n' :: acc) [] : List Char) = joinNl ls from rfl]
    rw [ih (fun x hx => h x (List.mem_cons_of_mem _ hx))]
    simp

theorem dropCR_eq_self {l : List Char} (h : l.getLast? ≠ some '\r') : dropCR l = l := by
  simp [dropCR, h]

theorem rustLinesData_joinNl (L : List (List Char))
    (h : ∀ l ∈ L, '\n' ∉ l) (h2 : ∀ l ∈ L, l.getLast? ≠ some '\r') :
    rustLinesData (joinNl L) = L := by
  cases L with
  | nil => rfl
  | cons l ls =>
    have hne : joinNl (l :: ls) ≠ [] := by
      simp only [joinNl, List.foldr_cons]
      cases l <;> simp
    simp only [rustLinesData, if_neg hne]
    rw [splitCharData_joinNl _ h]
    have hlast : ((l :: ls) ++ [([] : List Char)]).getLast? = some [] :=
      List.getLast?_concat _
    rw [if_pos hlast, List.dropLast_concat]
    calc (l :: ls).map dropCR
        = (l :: ls).map id := List.map_congr_left (fun x hx => dropCR_eq_self (h2 x hx))
      _ = l :: ls := List.map_id _

theorem linesJoin_data (L : List String) :
    (linesJoin L).data = joinNl (L.map String.data) := by
  induction L with
  | nil => rfl
  | cons l ls ih =>
    simp only [linesJoin, List.foldr_cons, joinNl, List.map_cons]
    rw [show (ls.foldr (fun l acc => l ++ "\n" ++ acc) "" : String) = linesJoin ls from rfl]
    simp only [String.data_append, ih]
    simp [joinNl]

theorem rustLines_linesJoin (L : List String)
    (h : ∀ l ∈ L, '\n' ∉ l.data) (h2 : ∀ l ∈ L, l.data.getLast? ≠ some '\r') :
    rustLines (linesJoin L) = L := by
  simp only [rustLines, linesJoin_data]
  rw [rustLinesData_joinNl (L.map String.data)
    (by intro x hx; rcases List.mem_map.mp hx with ⟨s, hs, rfl⟩; exact h s hs)
    (by intro x hx; rcases List.mem_map.mp hx with ⟨s, hs, rfl⟩; exact h2 s hs)]
  rw [List.map_map]
  have hid : (String.mk ∘ String.data) = id := funext fun s => rfl
  rw [hid, List.map_id]

/-! ### Parse invariant (towards claim C8) -/

theorem head_dropWhile_not (p : Char → Bool) :
    ∀ {l : List Char} {a : Char} {t : List Char}, l.dropWhile p = a :: t → p a = false := by
  intro l
  induction l with
  | nil => intro a t h; simp at h
  | cons c cs ih =>
    intro a t h
    rw [List.dropWhile_cons] at h
    by_cases hc : p c
    · rw [if_pos hc] at h
      exact ih h
    · rw [if_neg hc] at h
      rcases List.cons.injEq _ _ _ _ ▸ h with ⟨rfl, -⟩
      simpa using hc

theorem getLast?_of_suffix {u w : List Char} (h : u <:+ w) (hne : u ≠ []) :
    u.getLast? = w.getLast? := by
  obtain ⟨pre, rfl⟩ := h
  exact (List.getLast?_append_of_ne_nil pre hne).symm

theorem trimData_idem (l : List Char) : trimData (trimData l) = trimData l := by
  apply trim_of_parts
  · rcases hd : trimData l with _ | ⟨a, t⟩
    · simp
    · have hu : (trimData l).reverse =
          (l.dropWhile Char.isWhitespace).reverse.dropWhile Char.isWhitespace := by
        simp [trimData]
      have hune : (trimData l).reverse ≠ [] := by simp [hd]
      have hsuf : (trimData l).reverse <:+ (l.dropWhile Char.isWhitespace).reverse := by
        rw [hu]; exact List.dropWhile_suffix _
      have hlast : (trimData l).reverse.getLast? =
          (l.dropWhile Char.isWhitespace).reverse.getLast? :=
        getLast?_of_suffix hsuf hune
      rcases hD : l.dropWhile Char.isWhitespace with _ | ⟨b, s⟩
      · rw [hD] at hu
        simp at hu
        rw [hu] at hune
        simp at hune
      · have hb : b.isWhitespace = false := head_dropWhile_not _ hD
        have hhead : (trimData l).head? = some b := by
          rw [← List.getLast?_reverse, hlast, hD, List.getLast?_reverse]
          rfl
        rw [hd] at hhead
        simp only [List.head?_cons, Option.some.injEq] at hhead
        subst hhead
        rw [List.dropWhile_cons, if_neg (by simp [hb])]
  · have hu : (trimData l).reverse =
        (l.dropWhile Char.isWhitespace).reverse.dropWhile Char.isWhitespace := by
      simp [trimData]
    rw [hu]
    rcases hv : (l.dropWhile Char.isWhitespace).reverse.dropWhile Char.isWhitespace
      with _ | ⟨a, t⟩
    · rfl
    · have ha : a.isWhitespace = false := head_dropWhile_not _ hv
      rw [List.dropWhile_cons, if_neg (by simp [ha])]

theorem splitCharData_no_sep (sep : Char) :
    ∀ (l : List Char), ∀ p ∈ splitCharData sep l, sep ∉ p := by
  intro l
  induction l with
  | nil =>
    intro p hp
    simp only [splitCharData, List.mem_singleton] at hp
    simp [hp]
  | cons c cs ih =>
    intro p hp
    rcases hs : splitCharData sep cs with _ | ⟨h, t⟩
    · exact absurd hs (splitCharData_ne_nil sep cs)
    · rw [show splitCharData sep (c :: cs) =
          if c = sep then [] :: h :: t else (c :: h) :: t by
            simp only [splitCharData, hs]] at hp
      by_cases hc : c = sep
      · rw [if_pos hc] at hp
        rcases List.mem_cons.mp hp with rfl | hp2
        · simp
        · exact ih p (hs ▸ hp2)
      · rw [if_neg hc] at hp
        rcases List.mem_cons.mp hp with rfl | hp2
        · intro hin
          rcases List.mem_cons.mp hin with rfl | hin2
          · exact hc rfl
          · exact ih h (hs ▸ List.mem_cons_self _ _) hin2
        · exact ih p (hs ▸ List.mem_cons_of_mem _ hp2)

theorem mem_dropCR {l : List Char} : ∀ c ∈ dropCR l, c ∈ l := by
  intro c hc
  simp only [dropCR] at hc
  split at hc
  · exact (List.dropLast_sublist _).subset hc
  · exact hc

theorem rustLinesData_no_nl (l : List Char) : ∀ p ∈ rustLinesData l, '\n' ∉ p := by
  intro p hp
  simp only [rustLinesData] at hp
  split at hp
  · simp at hp
  · rcases List.mem_map.mp hp with ⟨q, hq, rfl⟩
    intro hin
    have hq2 : q ∈ splitCharData '\n' l := by
      by_cases hg : (splitCharData '\n' l).getLast? = some ([] : List Char)
      · rw [if_pos hg] at hq
        exact (List.dropLast_sublist _).subset hq
      · rw [if_neg hg] at hq
        exact hq
    exact splitCharData_no_sep '\n' l q hq2 (mem_dropCR _ hin)

theorem rustLines_no_nl (content : String) : ∀ s ∈ rustLines content, '\n' ∉ s.data := by
  intro s hs
  rcases List.mem_map.mp hs with ⟨q, hq, rfl⟩
  exact rustLinesData_no_nl content.data q hq

/-- The invariant of every string stored by the parser: trimmed, and
newline-free when the source line was newline-free. -/
def lineValue (s : String) : Prop := trimData s.data = s.data ∧ '\n' ∉ s.data

/-- The invariant of a parsed rule block. -/
def ruleInv (r : RobotsRule) : Prop :=
  lineValue r.user_agent ∧ (∀ a ∈ r.allow, lineValue a) ∧
  (∀ d ∈ r.disallow, lineValue d) ∧
  (∀ d, r.crawl_delay = some d → d < 4294967296)

/-- The invariant of a parsed document (also: the parser never produces
custom content). -/
def docInv (doc : RobotsTxt) : Prop :=
  (∀ r ∈ doc.rules, ruleInv r) ∧ (∀ s ∈ doc.sitemaps, lineValue s) ∧
  doc.custom_content = none

theorem parseU32_lt {s : String} {d : Nat} (h : parseU32 s = some d) : d < 4294967296 := by
  simp only [parseU32] at h
  split at h
  · exact absurd h (by simp)
  · rcases hp : parseDigitsAux _ 0 with _ | v <;> rw [hp] at h
    · exact absurd h (by simp)
    · dsimp only at h
      by_cases hb : v < 4294967296
      · rw [if_pos hb] at h
        rcases Option.some.inj h with rfl
        exact hb
      · rw [if_neg hb] at h
        exact absurd h (by simp)

theorem flush_docInv {st : RobotsTxt × Option RobotsRule}
    (h1 : docInv st.1) (h2 : ∀ r, st.2 = some r → ruleInv r) :
    docInv (flushState st) := by
  unfold flushState
  rcases hcur : st.2 with _ | r
  · exact h1
  · refine ⟨?_, h1.2.1, h1.2.2⟩
    intro x hx
    rcases List.mem_append.mp hx with hx2 | hx2
    · exact h1.1 x hx2
    · rcases List.mem_singleton.mp hx2 with rfl
      exact h2 x hcur

theorem robotsParseLine_inv (st : RobotsTxt × Option RobotsRule)
    (h1 : docInv st.1) (h2 : ∀ r, st.2 = some r → ruleInv r)
    (rawLine : String) (hline : '\n' ∉ rawLine.data) :
    docInv (robotsParseLine st rawLine).1 ∧
    (∀ r, (robotsParseLine st rawLine).2 = some r → ruleInv r) := by
  simp only [robotsParseLine]
  by_cases hskip : (trimStr rawLine = "" || startsCh (trimStr rawLine) '#') = true
  · rw [if_pos hskip]
    exact ⟨h1, h2⟩
  · rw [if_neg hskip]
    rcases hso : splitOnce ':' (trimStr rawLine) with _ | ⟨dir, val⟩
    · simp only [hso]
      exact ⟨h1, h2⟩
    · simp only [hso]
      have hsd : splitOnceData ':' (trimStr rawLine).data = some (dir.data, val.data) := by
        simp only [splitOnce] at hso
        rcases hx : splitOnceData ':' (trimStr rawLine).data with _ | ⟨a, b⟩ <;>
          rw [hx] at hso
        · exact absurd hso (by simp)
        · rcases Option.some.inj hso with h'
          cases h'
          rfl
      have hv : lineValue (trimStr val) := by
        constructor
        · exact trimData_idem _
        · intro hin
          have hm1 := mem_trimData _ hin
          have hm2 := (splitOnceData_mem hsd).2 _ hm1
          have hm3 := mem_trimData _ hm2
          exact hline hm3
      by_cases hd1 : lowerStr (trimStr dir) = "user-agent"
      · rw [if_pos hd1]
        refine ⟨?_, ?_⟩
        · rcases hcur : st.2 with _ | r <;> simp only [hcur]
          · exact h1
          · refine ⟨?_, h1.2.1, h1.2.2⟩
            intro x hx
            rcases List.mem_append.mp hx with hx2 | hx2
            · exact h1.1 x hx2
            · rcases List.mem_singleton.mp hx2 with rfl
              exact h2 x hcur
        · intro r hr
          rcases Option.some.inj hr with rfl
          exact ⟨hv, by simp, by simp, by simp⟩
      · rw [if_neg hd1]
        by_cases hd2 : lowerStr (trimStr dir) = "allow"
        · rw [if_pos hd2]
          rcases hcur : st.2 with _ | r
          · simp only []
            exact ⟨h1, h2⟩
          · simp only []
            refine ⟨h1, ?_⟩
            intro x hx
            rcases Option.some.inj hx with rfl
            obtain ⟨ha, hb, hc, hd⟩ := h2 r hcur
            refine ⟨ha, ?_, hc, hd⟩
            intro a hmem
            rcases List.mem_append.mp hmem with hmem2 | hmem2
            · exact hb a hmem2
            · rcases List.mem_singleton.mp hmem2 with rfl
              exact hv
        · rw [if_neg hd2]
          by_cases hd3 : lowerStr (trimStr dir) = "disallow"
          · rw [if_pos hd3]
            rcases hcur : st.2 with _ | r
            · simp only []
              exact ⟨h1, h2⟩
            · simp only []
              refine ⟨h1, ?_⟩
              intro x hx
              rcases Option.some.inj hx with rfl
              obtain ⟨ha, hb, hc, hd⟩ := h2 r hcur
              refine ⟨ha, hb, ?_, hd⟩
              intro a hmem
              rcases List.mem_append.mp hmem with hmem2 | hmem2
              · exact hc a hmem2
              · rcases List.mem_singleton.mp hmem2 with rfl
                exact hv
          · rw [if_neg hd3]
            by_cases hd4 : lowerStr (trimStr dir) = "crawl-delay"
            · rw [if_pos hd4]
              rcases hcd : parseU32 (trimStr val) with _ | delay
              · simp only []
                exact ⟨h1, h2⟩
              · simp only []
                rcases hcur : st.2 with _ | r
                · simp only []
                  exact ⟨⟨h1.1, h1.2.1, h1.2.2⟩, by simp⟩
                · simp only []
                  refine ⟨h1, ?_⟩
                  intro x hx
                  rcases Option.some.inj hx with rfl
                  obtain ⟨ha, hb, hc, -⟩ := h2 r hcur
                  refine ⟨ha, hb, hc, ?_⟩
                  intro dd hdd
                  rcases Option.some.inj hdd with rfl
                  exact parseU32_lt hcd
            · rw [if_neg hd4]
              by_cases hd5 : lowerStr (trimStr dir) = "sitemap"
              · rw [if_pos hd5]
                refine ⟨⟨h1.1, ?_, h1.2.2⟩, h2⟩
                intro s hs
                rcases List.mem_append.mp hs with hs2 | hs2
                · exact h1.2.1 s hs2
                · rcases List.mem_singleton.mp hs2 with rfl
                  exact hv
              · rw [if_neg hd5]
                exact ⟨h1, h2⟩

theorem foldl_parseLine_inv (lines : List String) :
    ∀ st : RobotsTxt × Option RobotsRule, (∀ s ∈ lines, '\n' ∉ s.data) →
      docInv st.1 → (∀ r, st.2 = some r → ruleInv r) →
      docInv (lines.foldl robotsParseLine st).1 ∧
      (∀ r, (lines.foldl robotsParseLine st).2 = some r → ruleInv r) := by
  induction lines with
  | nil => intro st _ h1 h2; exact ⟨h1, h2⟩
  | cons l ls ih =>
    intro st hl h1 h2
    simp only [List.foldl_cons]
    obtain ⟨h1', h2'⟩ :=
      robotsParseLine_inv st h1 h2 l (hl l (List.mem_cons_self _ _))
    exact ih _ (fun s hs => hl s (List.mem_cons_of_mem _ hs)) h1' h2'

theorem parse_docInv (content : String) : docInv (RobotsTxt.parse content) := by
  unfold RobotsTxt.parse
  obtain ⟨ha, hb⟩ := foldl_parseLine_inv (rustLines content) (RobotsTxt.new, none)
    (rustLines_no_nl content)
    (by exact ⟨by simp [RobotsTxt.new], by simp [RobotsTxt.new], rfl⟩)
    (by simp)
  exact flush_docInv ha hb


/-! ### Serialize/parse round trip (claim C8) -/

theorem splitOnceData_lit {sep : Char} :
    ∀ {a : List Char}, sep ∉ a → ∀ b : List Char,
      splitOnceData sep (a ++ sep :: b) = some (a, b) := by
  intro a
  induction a with
  | nil => intro _ b; simp [splitOnceData]
  | cons c t ih =>
    intro h b
    have hc : c ≠ sep := fun he => h (he ▸ List.mem_cons_self _ _)
    have ht : sep ∉ t := fun hin => h (List.mem_cons_of_mem _ hin)
    simp only [List.cons_append, splitOnceData, if_neg hc, List.append_eq, ih ht b]

theorem parseLine_allow (st : RobotsTxt × Option RobotsRule) (rule : RobotsRule)
    (hcur : st.2 = some rule) (v : String) (hv : trimData v.data = v.data) :
    robotsParseLine st ("Allow: " ++ v) =
      (st.1, some { rule with allow := rule.allow ++ [v] }) := by
  by_cases hne : v.data = []
  · have hv0 : v = "" := by
      cases v with
      | mk d => simp only at hne; rw [hne]
    subst hv0
    have e1 : trimStr ("Allow: " ++ "") = "Allow:" := by decide
    have e2 : splitOnce ':' "Allow:" = some ("Allow", "") := by decide
    have e3 : lowerStr (trimStr "Allow") = "allow" := by decide
    have e4 : trimStr "" = "" := by decide
    have e0 : startsCh "Allow:" '#' = false := by decide
    simp only [robotsParseLine, e1, e2, e3, e4, e0, hcur]
    simp
  · have htrim : trimStr ("Allow: " ++ v) = "Allow: " ++ v := by
      show String.mk (trimData ("Allow: " ++ v).data) = "Allow: " ++ v
      rw [show ("Allow: " ++ v).data = ('A' :: "llow: ".data) ++ v.data by
        simp [String.data_append]]
      rw [trimData_lit_append (by decide) hv hne]
      rfl
    have hsplit : splitOnce ':' ("Allow: " ++ v) = some ("Allow", String.mk (' ' :: v.data)) := by
      simp only [splitOnce]
      rw [show ("Allow: " ++ v).data = "Allow".data ++ ':' :: (' ' :: v.data) by
        simp [String.data_append]]
      rw [splitOnceData_lit (by decide) (' ' :: v.data)]
    have e3 : lowerStr (trimStr "Allow") = "allow" := by decide
    have e5 : trimStr (String.mk (' ' :: v.data)) = v := by
      show String.mk (trimData (' ' :: v.data)) = v
      rw [trimData_space_value hv]
    simp only [robotsParseLine, htrim, hsplit, e3, e5, hcur]
    rw [if_neg (by rw [show (decide (("Allow: " ++ v : String) = "") ||
          startsCh ("Allow: " ++ v) '#') = false from rfl]; exact Bool.false_ne_true)]
    simp

theorem trimData_of_not_ws {l : List Char} (h : ∀ c ∈ l, c.isWhitespace = false) :
    trimData l = l := by
  apply trim_of_parts
  · rcases l with _ | ⟨c, t⟩
    · rfl
    · rw [List.dropWhile_cons, if_neg (by simp [h c (List.mem_cons_self _ _)])]
  · rcases hr : l.reverse with _ | ⟨c, t⟩
    · rfl
    · have hc : c ∈ l := by
        rw [← List.mem_reverse, hr]; exact List.mem_cons_self _ _
      rw [List.dropWhile_cons, if_neg (by simp [h c hc])]

theorem natToString_digits (d : Nat) : ∀ c ∈ (natToString d).data, c.isDigit = true := by
  intro c hc
  exact natToDigits_all_digits d (d + 1) (by omega) c hc

theorem natToString_trimmed (d : Nat) :
    trimData (natToString d).data = (natToString d).data :=
  trimData_of_not_ws (fun c hc => (isDigit_facts c (natToString_digits d c hc)).1)

theorem natToString_ne_nil (d : Nat) : (natToString d).data ≠ [] :=
  natToDigits_ne_nil (d + 1) d (by omega)

theorem parseLine_userAgent (st : RobotsTxt × Option RobotsRule) (ua : String)
    (hv : trimData ua.data = ua.data) :
    robotsParseLine st ("User-agent: " ++ ua) =
      (flushState st, some ⟨ua, [], [], none⟩) := by
  by_cases hne : ua.data = []
  · have hv0 : ua = "" := by
      cases ua with
      | mk d => simp only at hne; rw [hne]
    subst hv0
    have e1 : trimStr ("User-agent: " ++ "") = "User-agent:" := by decide
    have e2 : splitOnce ':' "User-agent:" = some ("User-agent", "") := by decide
    have e3 : lowerStr (trimStr "User-agent") = "user-agent" := by decide
    have e4 : trimStr "" = "" := by decide
    have e0 : startsCh "User-agent:" '#' = false := by decide
    simp only [robotsParseLine, e1, e2, e3, e4, e0, flushState]
    simp
  · have htrim : trimStr ("User-agent: " ++ ua) = "User-agent: " ++ ua := by
      show String.mk (trimData ("User-agent: " ++ ua).data) = "User-agent: " ++ ua
      rw [show ("User-agent: " ++ ua).data = ('U' :: "ser-agent: ".data) ++ ua.data by
        simp [String.data_append]]
      rw [trimData_lit_append (by decide) hv hne]
      rfl
    have hsplit : splitOnce ':' ("User-agent: " ++ ua) =
        some ("User-agent", String.mk (' ' :: ua.data)) := by
      simp only [splitOnce]
      rw [show ("User-agent: " ++ ua).data = "User-agent".data ++ ':' :: (' ' :: ua.data) by
        simp [String.data_append]]
      rw [splitOnceData_lit (by decide) (' ' :: ua.data)]
    have e3 : lowerStr (trimStr "User-agent") = "user-agent" := by decide
    have e5 : trimStr (String.mk (' ' :: ua.data)) = ua := by
      show String.mk (trimData (' ' :: ua.data)) = ua
      rw [trimData_space_value hv]
    simp only [robotsParseLine, htrim, hsplit, e3, e5, flushState]
    rw [if_neg (by rw [show (decide (("User-agent: " ++ ua : String) = "") ||
          startsCh ("User-agent: " ++ ua) '#') = false from rfl]; exact Bool.false_ne_true)]
    simp

theorem parseLine_disallow (st : RobotsTxt × Option RobotsRule) (rule : RobotsRule)
    (hcur : st.2 = some rule) (v : String) (hv : trimData v.data = v.data) :
    robotsParseLine st ("Disallow: " ++ v) =
      (st.1, some { rule with disallow := rule.disallow ++ [v] }) := by
  by_cases hne : v.data = []
  · have hv0 : v = "" := by
      cases v with
      | mk d => simp only at hne; rw [hne]
    subst hv0
    have e1 : trimStr ("Disallow: " ++ "") = "Disallow:" := by decide
    have e2 : splitOnce ':' "Disallow:" = some ("Disallow", "") := by decide
    have e3 : lowerStr (trimStr "Disallow") = "disallow" := by decide
    have e4 : trimStr "" = "" := by decide
    have e0 : startsCh "Disallow:" '#' = false := by decide
    simp only [robotsParseLine, e1, e2, e3, e4, e0, hcur]
    simp
  · have htrim : trimStr ("Disallow: " ++ v) = "Disallow: " ++ v := by
      show String.mk (trimData ("Disallow: " ++ v).data) = "Disallow: " ++ v
      rw [show ("Disallow: " ++ v).data = ('D' :: "isallow: ".data) ++ v.data by
        simp [String.data_append]]
      rw [trimData_lit_append (by decide) hv hne]
      rfl
    have hsplit : splitOnce ':' ("Disallow: " ++ v) =
        some ("Disallow", String.mk (' ' :: v.data)) := by
      simp only [splitOnce]
      rw [show ("Disallow: " ++ v).data = "Disallow".data ++ ':' :: (' ' :: v.data) by
        simp [String.data_append]]
      rw [splitOnceData_lit (by decide) (' ' :: v.data)]
    have e3 : lowerStr (trimStr "Disallow") = "disallow" := by decide
    have e5 : trimStr (String.mk (' ' :: v.data)) = v := by
      show String.mk (trimData (' ' :: v.data)) = v
      rw [trimData_space_value hv]
    simp only [robotsParseLine, htrim, hsplit, e3, e5, hcur]
    rw [if_neg (by rw [show (decide (("Disallow: " ++ v : String) = "") ||
          startsCh ("Disallow: " ++ v) '#') = false from rfl]; exact Bool.false_ne_true)]
    simp

theorem parseLine_crawlDelay (st : RobotsTxt × Option RobotsRule) (rule : RobotsRule)
    (hcur : st.2 = some rule) (d : Nat) (hd : d < 4294967296) :
    robotsParseLine st ("Crawl-delay: " ++ natToString d) =
      (st.1, some { rule with crawl_delay := some d }) := by
  have hv : trimData (natToString d).data = (natToString d).data := natToString_trimmed d
  have hne : (natToString d).data ≠ [] := natToString_ne_nil d
  have htrim : trimStr ("Crawl-delay: " ++ natToString d) = "Crawl-delay: " ++ natToString d := by
    show String.mk (trimData ("Crawl-delay: " ++ natToString d).data) =
      "Crawl-delay: " ++ natToString d
    rw [show ("Crawl-delay: " ++ natToString d).data =
        ('C' :: "rawl-delay: ".data) ++ (natToString d).data by simp [String.data_append]]
    rw [trimData_lit_append (by decide) hv hne]
    rfl
  have hsplit : splitOnce ':' ("Crawl-delay: " ++ natToString d) =
      some ("Crawl-delay", String.mk (' ' :: (natToString d).data)) := by
    simp only [splitOnce]
    rw [show ("Crawl-delay: " ++ natToString d).data =
        "Crawl-delay".data ++ ':' :: (' ' :: (natToString d).data) by simp [String.data_append]]
    rw [splitOnceData_lit (by decide) (' ' :: (natToString d).data)]
  have e3 : lowerStr (trimStr "Crawl-delay") = "crawl-delay" := by decide
  have e5 : trimStr (String.mk (' ' :: (natToString d).data)) = natToString d := by
    show String.mk (trimData (' ' :: (natToString d).data)) = natToString d
    rw [trimData_space_value hv]
  have e6 : parseU32 (natToString d) = some d := parseU32_natToString d hd
  simp only [robotsParseLine, htrim, hsplit, e3, e5, e6, hcur]
  rw [if_neg (by rw [show (decide (("Crawl-delay: " ++ natToString d : String) = "") ||
        startsCh ("Crawl-delay: " ++ natToString d) '#') = false from rfl]; exact Bool.false_ne_true)]
  simp

theorem parseLine_sitemap (st : RobotsTxt × Option RobotsRule) (v : String)
    (hv : trimData v.data = v.data) :
    robotsParseLine st ("Sitemap: " ++ v) =
      ({ st.1 with sitemaps := st.1.sitemaps ++ [v] }, st.2) := by
  by_cases hne : v.data = []
  · have hv0 : v = "" := by
      cases v with
      | mk d => simp only at hne; rw [hne]
    subst hv0
    have e1 : trimStr ("Sitemap: " ++ "") = "Sitemap:" := by decide
    have e2 : splitOnce ':' "Sitemap:" = some ("Sitemap", "") := by decide
    have e3 : lowerStr (trimStr "Sitemap") = "sitemap" := by decide
    have e4 : trimStr "" = "" := by decide
    have e0 : startsCh "Sitemap:" '#' = false := by decide
    simp only [robotsParseLine, e1, e2, e3, e4, e0]
    simp
  · have htrim : trimStr ("Sitemap: " ++ v) = "Sitemap: " ++ v := by
      show String.mk (trimData ("Sitemap: " ++ v).data) = "Sitemap: " ++ v
      rw [show ("Sitemap: " ++ v).data = ('S' :: "itemap: ".data) ++ v.data by
        simp [String.data_append]]
      rw [trimData_lit_append (by decide) hv hne]
      rfl
    have hsplit : splitOnce ':' ("Sitemap: " ++ v) =
        some ("Sitemap", String.mk (' ' :: v.data)) := by
      simp only [splitOnce]
      rw [show ("Sitemap: " ++ v).data = "Sitemap".data ++ ':' :: (' ' :: v.data) by
        simp [String.data_append]]
      rw [splitOnceData_lit (by decide) (' ' :: v.data)]
    have e3 : lowerStr (trimStr "Sitemap") = "sitemap" := by decide
    have e5 : trimStr (String.mk (' ' :: v.data)) = v := by
      show String.mk (trimData (' ' :: v.data)) = v
      rw [trimData_space_value hv]
    simp only [robotsParseLine, htrim, hsplit, e3, e5]
    rw [if_neg (by rw [show (decide (("Sitemap: " ++ v : String) = "") ||
          startsCh ("Sitemap: " ++ v) '#') = false from rfl]; exact Bool.false_ne_true)]
    simp

theorem parseLine_blank (st : RobotsTxt × Option RobotsRule) :
    robotsParseLine st "" = st := by
  have e : trimStr "" = "" := by decide
  simp [robotsParseLine, e]

theorem foldAllow : ∀ (al : List String), (∀ a ∈ al, trimData a.data = a.data) →
    ∀ (acc : RobotsTxt) (rule : RobotsRule),
    (al.map (fun a => "Allow: " ++ a)).foldl robotsParseLine (acc, some rule) =
      (acc, some { rule with allow := rule.allow ++ al }) := by
  intro al
  induction al with
  | nil => intro _ acc rule; simp
  | cons a as ih =>
    intro h acc rule
    simp only [List.map_cons, List.foldl_cons]
    rw [parseLine_allow (acc, some rule) rule rfl a (h a (List.mem_cons_self _ _))]
    rw [ih (fun x hx => h x (List.mem_cons_of_mem _ hx)) acc _]
    simp [List.append_assoc]

theorem foldDisallow : ∀ (dl : List String), (∀ x ∈ dl, trimData x.data = x.data) →
    ∀ (acc : RobotsTxt) (rule : RobotsRule),
    (dl.map (fun x => "Disallow: " ++ x)).foldl robotsParseLine (acc, some rule) =
      (acc, some { rule with disallow := rule.disallow ++ dl }) := by
  intro dl
  induction dl with
  | nil => intro _ acc rule; simp
  | cons a as ih =>
    intro h acc rule
    simp only [List.map_cons, List.foldl_cons]
    rw [parseLine_disallow (acc, some rule) rule rfl a (h a (List.mem_cons_self _ _))]
    rw [ih (fun x hx => h x (List.mem_cons_of_mem _ hx)) acc _]
    simp [List.append_assoc]

theorem foldSitemaps : ∀ (sms : List String), (∀ s ∈ sms, trimData s.data = s.data) →
    ∀ (st : RobotsTxt × Option RobotsRule),
    (sms.map (fun s => "Sitemap: " ++ s)).foldl robotsParseLine st =
      ({ st.1 with sitemaps := st.1.sitemaps ++ sms }, st.2) := by
  intro sms
  induction sms with
  | nil => intro _ st; simp
  | cons s ss ih =>
    intro h st
    simp only [List.map_cons, List.foldl_cons]
    rw [parseLine_sitemap st s (h s (List.mem_cons_self _ _))]
    rw [ih (fun x hx => h x (List.mem_cons_of_mem _ hx)) _]
    simp [List.append_assoc]

theorem fold_block (r : RobotsRule) (hr : ruleInv r) :
    ∀ st : RobotsTxt × Option RobotsRule,
    (robotsRuleLines none r).foldl robotsParseLine st = (flushState st, some r) := by
  obtain ⟨ua, al, dl, cd⟩ := r
  obtain ⟨⟨hua, -⟩, hal, hdl, hcd⟩ := hr
  intro st
  simp only [robotsRuleLines, List.foldl_append, List.foldl_cons, List.foldl_nil]
  rw [parseLine_userAgent st ua hua]
  rw [foldAllow al (fun a ha => (hal a ha).1) (flushState st) ⟨ua, [], [], none⟩]
  simp only [List.nil_append]
  rw [foldDisallow dl (fun x hx => (hdl x hx).1) (flushState st) ⟨ua, al, [], none⟩]
  simp only [List.nil_append]
  rcases cd with _ | d
  · simp only [Option.or_none, List.foldl_nil]
    rw [parseLine_blank]
  · simp only [Option.or_none, List.foldl_cons, List.foldl_nil]
    rw [parseLine_crawlDelay _ ⟨ua, al, dl, none⟩ rfl d (hcd d rfl)]
    rw [parseLine_blank]

theorem fold_tail : ∀ (rules : List RobotsRule), (∀ r ∈ rules, ruleInv r) →
    ∀ (sms : List String), (∀ s ∈ sms, trimData s.data = s.data) →
    ∀ (acc : RobotsTxt) (r0 : RobotsRule),
    flushState (((rules.map (robotsRuleLines none)).flatten
        ++ sms.map (fun s => "Sitemap: " ++ s)).foldl robotsParseLine (acc, some r0)) =
      { acc with rules := acc.rules ++ r0 :: rules, sitemaps := acc.sitemaps ++ sms } := by
  intro rules
  induction rules with
  | nil =>
    intro _ sms hsm acc r0
    simp only [List.map_nil, List.flatten_nil, List.nil_append]
    rw [foldSitemaps sms hsm (acc, some r0)]
    simp [flushState]
  | cons r rest ih =>
    intro hr sms hsm acc r0
    simp only [List.map_cons, List.flatten_cons]
    rw [List.append_assoc, List.foldl_append]
    rw [fold_block r (hr r (List.mem_cons_self _ _)) (acc, some r0)]
    rw [show flushState (acc, some r0) = { acc with rules := acc.rules ++ [r0] } from rfl]
    rw [ih (fun x hx => hr x (List.mem_cons_of_mem _ hx)) sms hsm _ r]
    simp [List.append_assoc]

theorem fold_all : ∀ (rules : List RobotsRule), (∀ r ∈ rules, ruleInv r) →
    ∀ (sms : List String), (∀ s ∈ sms, trimData s.data = s.data) →
    ∀ (acc : RobotsTxt),
    flushState (((rules.map (robotsRuleLines none)).flatten
        ++ sms.map (fun s => "Sitemap: " ++ s)).foldl robotsParseLine (acc, none)) =
      { acc with rules := acc.rules ++ rules, sitemaps := acc.sitemaps ++ sms } := by
  intro rules hr sms hsm acc
  rcases rules with _ | ⟨r, rest⟩
  · simp only [List.map_nil, List.flatten_nil, List.nil_append]
    rw [foldSitemaps sms hsm (acc, none)]
    simp [flushState]
  · simp only [List.map_cons, List.flatten_cons]
    rw [List.append_assoc, List.foldl_append]
    rw [fold_block r (hr r (List.mem_cons_self _ _)) (acc, none)]
    rw [show flushState (acc, none) = acc from rfl]
    rw [fold_tail rest (fun x hx => hr x (List.mem_cons_of_mem _ hx)) sms hsm acc r]

theorem line_safe_of_value (lit : String) (hnl : '\n' ∉ lit.data)
    (hlast : lit.data.getLast? ≠ some '\r') {v : String}
    (hv : trimData v.data = v.data) (hvnl : '\n' ∉ v.data) :
    '\n' ∉ (lit ++ v).data ∧ (lit ++ v).data.getLast? ≠ some '\r' := by
  constructor
  · rw [String.data_append]
    intro hm
    rcases List.mem_append.mp hm with h | h
    · exact hnl h
    · exact hvnl h
  · rw [String.data_append]
    rcases hd : v.data with _ | ⟨c, t⟩
    · rw [List.append_nil]
      exact hlast
    · rw [← hd]
      rw [List.getLast?_append_of_ne_nil lit.data (by rw [hd]; simp)]
      exact trimmed_getLast_not_ws (c := '\x0d') hv (by decide)

theorem robotsLines_safe (doc : RobotsTxt)
    (h1 : ∀ r ∈ doc.rules, ruleInv r) (h2 : ∀ s ∈ doc.sitemaps, lineValue s) :
    ∀ l ∈ robotsLines doc, '\n' ∉ l.data ∧ l.data.getLast? ≠ some '\r' := by
  intro l hl
  simp only [robotsLines, List.mem_append] at hl
  rcases hl with hl | hl
  · rcases List.mem_flatten.mp hl with ⟨b, hb, hlb⟩
    rcases List.mem_map.mp hb with ⟨r, hrm, rfl⟩
    obtain ⟨hua, hal, hdl, -⟩ := h1 r hrm
    simp only [robotsRuleLines, List.mem_append, List.mem_singleton, List.mem_map] at hlb
    rcases hlb with (((rfl | ⟨a, ha, rfl⟩) | ⟨x, hx, rfl⟩) | hm) | rfl
    · exact line_safe_of_value "User-agent: " (by decide) (by decide) hua.1 hua.2
    · exact line_safe_of_value "Allow: " (by decide) (by decide) (hal a ha).1 (hal a ha).2
    · exact line_safe_of_value "Disallow: " (by decide) (by decide) (hdl x hx).1 (hdl x hx).2
    · rcases hc : (r.crawl_delay.or doc.crawl_delay) with _ | d
      · rw [hc] at hm
        simp at hm
      · rw [hc] at hm
        simp only [List.mem_singleton] at hm
        subst hm
        refine line_safe_of_value "Crawl-delay: " (by decide) (by decide)
          (natToString_trimmed d) ?_
        intro hmem
        exact (isDigit_facts _ (natToString_digits d _ hmem)).2.2.2.1 rfl
    · exact ⟨by decide, by decide⟩
  · rcases List.mem_map.mp hl with ⟨s, hs, rfl⟩
    exact line_safe_of_value "Sitemap: " (by decide) (by decide) (h2 s hs).1 (h2 s hs).2

theorem parse_toString_of_inv (doc : RobotsTxt)
    (h1 : ∀ r ∈ doc.rules, ruleInv r) (h2 : ∀ s ∈ doc.sitemaps, lineValue s)
    (hcc : doc.custom_content = none) (hnone : doc.crawl_delay = none) :
    RobotsTxt.parse doc.to_string = doc := by
  obtain ⟨rs, sm, cdel, cust⟩ := doc
  simp only at h1 h2 hcc hnone
  subst hcc hnone
  have hts : RobotsTxt.to_string ⟨rs, sm, none, none⟩ =
      linesJoin (robotsLines ⟨rs, sm, none, none⟩) := by
    simp only [RobotsTxt.to_string]
    simp
  rw [hts]
  simp only [RobotsTxt.parse]
  rw [rustLines_linesJoin _ (fun l hl => (robotsLines_safe _ h1 h2 l hl).1)
      (fun l hl => (robotsLines_safe _ h1 h2 l hl).2)]
  simp only [robotsLines]
  rw [fold_all rs h1 sm (fun s hs => (h2 s hs).1) RobotsTxt.new]
  simp [RobotsTxt.new]

/-- C8: serializing a parsed robots.txt document and parsing it again is
stable, **provided the first parse produced no document-level crawl delay**
(a doc-level `Crawl-delay` is re-emitted inside every rule block by
`to_string`, so it does not survive a round trip; see the counterexample):
under that hypothesis, `parse (to_string (parse text)) = parse text`,
preserving rule blocks with their allow/disallow lists, per-rule
crawl-delays, and the sitemap list. -/
theorem claim_C8_round_trip (text : String)
    (h : (RobotsTxt.parse text).crawl_delay = none) :
    RobotsTxt.parse (RobotsTxt.parse text).to_string = RobotsTxt.parse text := by
  obtain ⟨hr, hs, hc⟩ := parse_docInv text
  exact parse_toString_of_inv (RobotsTxt.parse text) hr hs hc h

theorem claim_C8_round_trip_witness :
    RobotsTxt.parse (RobotsTxt.parse
        "User-agent: *\nAllow: /public\nDisallow: /private\nCrawl-delay: 7\n\nUser-agent: bot\nDisallow: /tmp\n\nSitemap: https://example.com/s.xml\n").to_string =
      RobotsTxt.parse
        "User-agent: *\nAllow: /public\nDisallow: /private\nCrawl-delay: 7\n\nUser-agent: bot\nDisallow: /tmp\n\nSitemap: https://example.com/s.xml\n" :=
  claim_C8_round_trip
    "User-agent: *\nAllow: /public\nDisallow: /private\nCrawl-delay: 7\n\nUser-agent: bot\nDisallow: /tmp\n\nSitemap: https://example.com/s.xml\n"
    (by decide)

/-- Counterexample to the unrestricted claim: for the well-formed input
`"Crawl-delay: 5\nUser-agent: a\n"` (recognized directives only), the
document-level crawl delay is serialized into the `a` block, so the
re-parse differs from the first parse. -/
theorem c8_doc_level_crawl_delay_not_round_trip :
    RobotsTxt.parse (RobotsTxt.parse "Crawl-delay: 5\nUser-agent: a\n").to_string ≠
      RobotsTxt.parse "Crawl-delay: 5\nUser-agent: a\n" := by decide

end RustSeo
